import Mathlib

/-!
Verification development for the events-synchronisation script
(`src/utils/update-events.py`).  The markdown codec (`parse_markdown`)
and the merge engine (`merge_and_generate_markdown`) are embedded as
executable Lean functions over `List Char` strings; dates are triples of
naturals compared lexicographically, mirroring Python `datetime.date`.
-/

set_option maxHeartbeats 1000000
set_option maxRecDepth 100000

/-- Calendar date, mirroring Python `datetime.date` (compared lexicographically). -/
structure Date where
  y : Nat
  m : Nat
  d : Nat
deriving DecidableEq, Repr

/-- `dateGe a b` is Python `a >= b` on `datetime.date` (lexicographic on y, m, d). -/
def dateGe (a b : Date) : Bool :=
  if b.y < a.y then true
  else if a.y < b.y then false
  else if b.m < a.m then true
  else if a.m < b.m then false
  else decide (b.d ≤ a.d)

def mJan : List Char := "Jan".data
def mFeb : List Char := "Feb".data
def mMar : List Char := "Mar".data
def mApr : List Char := "Apr".data
def mMay : List Char := "May".data
def mJun : List Char := "Jun".data
def mJul : List Char := "Jul".data
def mAug : List Char := "Aug".data
def mSep : List Char := "Sep".data
def mOct : List Char := "Oct".data
def mNov : List Char := "Nov".data
def mDec : List Char := "Dec".data

def monthTable : List (List Char) := [mJan, mFeb, mMar, mApr, mMay, mJun, mJul, mAug, mSep, mOct, mNov, mDec]

def mBad : List Char := "???".data

/-- Abbreviated month name, as produced by `strftime("%b")` (C locale). -/
def monthAbbrev (m : Nat) : List Char := monthTable.getD (m - 1) mBad

/-- Two-digit zero-padded decimal rendering (`%02d`, for values below 100). -/
def pad2 (n : Nat) : List Char := [Nat.digitChar (n / 10 % 10), Nat.digitChar (n % 10)]

/-- Four-digit zero-padded decimal rendering (`%04d`, for values below 10000). -/
def pad4 (n : Nat) : List Char :=
  [Nat.digitChar (n / 1000 % 10), Nat.digitChar (n / 100 % 10),
   Nat.digitChar (n / 10 % 10), Nat.digitChar (n % 10)]

/-- `strftime("%b %d, %Y")`, the format used for `Date:` lines. -/
def formatDate (dt : Date) : List Char :=
  monthAbbrev dt.m ++ ' ' :: pad2 dt.d ++ ',' :: ' ' :: pad4 dt.y

def isLeap (y : Nat) : Bool := (y % 4 == 0) && (y % 100 != 0 || y % 400 == 0)

def daysInMonth (m y : Nat) : Nat :=
  match m with
  | 2 => if isLeap y then 29 else 28
  | 4 => 30
  | 6 => 30
  | 9 => 30
  | 11 => 30
  | _ => 31

def isDigitC (c : Char) : Bool := c.isDigit

def digitsToNat (l : List Char) : Nat := l.foldl (fun a c => a * 10 + (c.toNat - 48)) 0

/-- `datetime.strptime(s, "%b %d, %Y").date()`: abbreviated month, day of at
most two digits, comma, space, year of at most four digits; the constructed
date must be a valid calendar date (this is what raises `ValueError` —
the spec's `DateFormat` kind — on any other input). -/
def parseDate (s : List Char) : Option Date :=
  match s with
  | a :: b :: c :: ' ' :: rest =>
    match monthTable.findIdx? (fun mn => mn == [a, b, c]) with
    | none => none
    | some mi =>
      let ds := rest.takeWhile isDigitC
      let r2 := rest.dropWhile isDigitC
      if ds.isEmpty then none
      else if 2 < ds.length then none
      else
        match r2 with
        | ',' :: ' ' :: r3 =>
          let ys := r3.takeWhile isDigitC
          let r4 := r3.dropWhile isDigitC
          if ys.isEmpty then none
          else if 4 < ys.length then none
          else if !r4.isEmpty then none
          else
            let day := digitsToNat ds
            let yr := digitsToNat ys
            let mo := mi + 1
            if yr = 0 then none
            else if 1 ≤ day ∧ day ≤ daysInMonth mo yr then some ⟨yr, mo, day⟩
            else none
        | _ => none
  | _ => none

/-- UTC wall-clock instant, mirroring `datetime.utcnow()`. -/
structure Timestamp where
  y : Nat
  mo : Nat
  d : Nat
  h : Nat
  mi : Nat
  s : Nat
deriving DecidableEq, Repr

/-- `utcnow().strftime("%Y-%m-%dT%H:%M:%SZ")`. -/
def utcFormat (t : Timestamp) : List Char :=
  pad4 t.y ++ '-' :: pad2 t.mo ++ '-' :: pad2 t.d ++
  'T' :: pad2 t.h ++ ':' :: pad2 t.mi ++ ':' :: pad2 t.s ++ ['Z']

/-- Checks the `YYYY-MM-DDThh:mm:ssZ` shape claimed for `publishDate`. -/
def isUtcShape (s : List Char) : Bool :=
  match s with
  | [a, b, c, d, '-', e, f, '-', g, h, 'T', i, j, ':', k, l, ':', m, n, 'Z'] =>
    isDigitC a && isDigitC b && isDigitC c && isDigitC d && isDigitC e && isDigitC f &&
    isDigitC g && isDigitC h && isDigitC i && isDigitC j && isDigitC k && isDigitC l &&
    isDigitC m && isDigitC n
  | _ => false

/-- One event record, the dict built by the script (`section` is called
`sect` here because `section` is a Lean keyword). -/
structure Ev where
  id : List Char
  name : List Char
  date : Date
  description : List Char
  location : List Char
  sect : List Char
deriving DecidableEq, Repr

-- String constants of the source (each written once, as character data).
def delimC : List Char := "---\n".data
def delimTailC : List Char := "--\n".data
def dash3 : List Char := "---".data
def nlC : List Char := "\n".data
def nl2 : List Char := "\n\n".data
def nlnlHash : List Char := "\n\n#".data
def upHeadC : List Char := "# Upcoming Events".data
def pastHeadC : List Char := "# Past Events".data
def upFullC : List Char := upHeadC ++ nl2
def pastFullC : List Char := pastHeadC ++ nl2
def headMark : List Char := "## ".data
def idLab : List Char := "\nID: ".data
def dateLab : List Char := "\nDate: ".data
def descLab : List Char := "\nDescription:\n".data
def locLab : List Char := "\nLocation: ".data
def pubLab : List Char := "publishDate:".data
def pubLabTail : List Char := "ublishDate:".data
def upcomingS : List Char := "upcoming".data
def pastS : List Char := "past".data
def upHeadTailC : List Char := " Upcoming Events".data
def pastHeadTailC : List Char := " Past Events".data
def upFullTailC : List Char := " Upcoming Events\n\n".data
def pastFullTailC : List Char := " Past Events\n\n".data

/-- Python whitespace as stripped by `str.strip()`. -/
def isWs (c : Char) : Bool :=
  c == ' ' || c == '\t' || c == '\n' || c == '\r' || c == '\x0b' || c == '\x0c'

def rstripC (l : List Char) : List Char := (l.reverse.dropWhile isWs).reverse

/-- Python `str.strip()`. -/
def pyStrip (l : List Char) : List Char := rstripC (l.dropWhile isWs)

/-- Index of the first occurrence of `pat` in `s` (regex/`str.find` search). -/
def findSub (pat : List Char) : List Char → Option Nat
  | [] => if pat.isEmpty then some 0 else none
  | c :: cs => if pat.isPrefixOf (c :: cs) then some 0 else (findSub pat cs).map (· + 1)

def containsSub (s pat : List Char) : Bool := (findSub pat s).isSome

/-- Number of positions of `s` at which `pat` occurs (the patterns used here
cannot overlap themselves, so this is also the non-overlapping count). -/
def countOcc (pat : List Char) : List Char → Nat
  | [] => 0
  | c :: cs => (if pat.isPrefixOf (c :: cs) then 1 else 0) + countOcc pat cs

/-- Python `content.split(sep, 2)`: at most two splits, at the leftmost
occurrences of `sep`. -/
def split3 (sep s : List Char) : List (List Char) :=
  match findSub sep s with
  | none => [s]
  | some i =>
    let r1 := s.drop (i + sep.length)
    match findSub sep r1 with
    | none => [s.take i, r1]
    | some j => [s.take i, r1.take j, r1.drop (j + sep.length)]

/-- `re.sub(r"publishDate:.*", "publishDate: " ++ now, s)`: every occurrence
of the label, together with the remainder of its line, is replaced; scanning
resumes at the newline.  Fuelled by the string length (each step consumes at
least the label). -/
def pubDateSubF : Nat → List Char → List Char → List Char
  | 0, s, _ => s
  | fuel + 1, s, now =>
    match findSub pubLab s with
    | none => s
    | some i =>
      let rest := s.drop (i + pubLab.length)
      s.take i ++ pubLab ++ ' ' :: now ++ pubDateSubF fuel (rest.dropWhile (fun c => c != '\n')) now

def pubDateSub (s now : List Char) : List Char := pubDateSubF s.length s now

/-- `re.search(header ++ r"(.*?)(\n\n#|$)", s, re.DOTALL)`, returning group 1:
the shortest stretch after the first occurrence of `header` that is followed
by `"\n\n#"` or by the end of the string (a final newline counts as end,
as for `$`). -/
def searchBlock (header s : List Char) : Option (List Char) :=
  match findSub header s with
  | none => none
  | some i =>
    let t := s.drop (i + header.length)
    match findSub nlnlHash t with
    | some k => some (t.take k)
    | none => if t.getLast? = some '\n' then some (t.take (t.length - 1)) else some t

/-- The five capture groups of the event regex. -/
structure EvG where
  g1 : List Char
  g2 : List Char
  g3 : List Char
  g4 : List Char
  g5 : List Char
deriving DecidableEq, Repr

def nonNl (c : Char) : Bool := c != '\n'

def dropPre (pat s : List Char) : Option (List Char) :=
  if pat.isPrefixOf s then some (s.drop pat.length) else none

/-- The greedy Kleene star `(?:\n\n[^\n]+)*` of the description group:
consumes maximal blank-line-separated single non-empty lines.  Fuelled by
the string length (each step consumes at least three characters). -/
def takeParas : Nat → List Char → List Char × List Char
  | 0, s => ([], s)
  | fuel + 1, s =>
    match s with
    | '\n' :: '\n' :: rest =>
      let l := rest.takeWhile nonNl
      if l.isEmpty then ([], s)
      else
        let p := takeParas fuel (rest.dropWhile nonNl)
        ('\n' :: '\n' :: (l ++ p.1), p.2)
    | _ => ([], s)

/-- One attempt of the event regex
`(## [^\n]+)\nID: ([^\n]+)\nDate: ([^\n]+)\nDescription:\n([^\n]+(?:\n\n[^\n]+)*)\nLocation: ([^\n]+)`
at the start of `s`.  The pattern is line-rigid: every `[^\n]+` is forced to
the full remainder of its line and backtracking can never rescue a failed
attempt (each dropped star iteration starts with two newlines where
`"\nLocation: "` would need one), so a committed greedy scan is exact. -/
def matchEventAt (s : List Char) : Option (EvG × List Char) :=
  match dropPre headMark s with
  | none => none
  | some r0 =>
    let h := r0.takeWhile nonNl
    if h.isEmpty then none
    else
      let r1 := r0.dropWhile nonNl
      match dropPre idLab r1 with
      | none => none
      | some r2 =>
        let idg := r2.takeWhile nonNl
        if idg.isEmpty then none
        else
          let r3 := r2.dropWhile nonNl
          match dropPre dateLab r3 with
          | none => none
          | some r4 =>
            let dg := r4.takeWhile nonNl
            if dg.isEmpty then none
            else
              let r5 := r4.dropWhile nonNl
              match dropPre descLab r5 with
              | none => none
              | some r6 =>
                let p0 := r6.takeWhile nonNl
                if p0.isEmpty then none
                else
                  let pr := takeParas r6.length (r6.dropWhile nonNl)
                  match dropPre locLab pr.2 with
                  | none => none
                  | some r9 =>
                    let lg := r9.takeWhile nonNl
                    if lg.isEmpty then none
                    else some (⟨headMark ++ h, idg, dg, p0 ++ pr.1, lg⟩, r9.dropWhile nonNl)

/-- `re.findall(event_pattern, s, re.DOTALL)`: scan left to right, matching
at the earliest possible position, continuing after each match.  Fuelled by
the string length (every step consumes at least one character). -/
def findEventsF : Nat → List Char → List EvG
  | 0, _ => []
  | fuel + 1, s =>
    match s with
    | [] => []
    | c :: cs =>
      match matchEventAt (c :: cs) with
      | some (g, r) => g :: findEventsF fuel r
      | none => findEventsF fuel cs

def findEvents (s : List Char) : List EvG := findEventsF s.length s

/-- Error kinds of the parser (`MalformedDocument` abstracts the
`ValueError`/`AttributeError` raised on bad structure, `DateFormat` the
`strptime` failure). -/
inductive PErr
  | malformedDocument
  | dateFormat
deriving DecidableEq, Repr

/-- The inner `process_events(matches, section)` of `parse_markdown`. -/
def processEvents : List EvG → List Char → Except PErr (List Ev)
  | [], _ => .ok []
  | g :: gs, sct =>
    match parseDate g.g3 with
    | none => .error .dateFormat
    | some dt =>
      match processEvents gs sct with
      | .error e => .error e
      | .ok evs =>
        .ok ({ id := g.g2, name := pyStrip g.g1, date := dt,
               description := pyStrip g.g4, location := g.g5, sect := sct } :: evs)

/-- `parse_markdown(content)`: front-matter split on `"---\n"` (maxsplit 2,
needing three parts), `publishDate` rewritten to the current UTC instant,
the two section blocks located by regex search, events extracted per block. -/
def parse_markdown (content : List Char) (now : Timestamp) :
    Except PErr (List Char × List Ev × List Ev) :=
  match split3 delimC content with
  | [_, fm, body] =>
    let fm2 := pubDateSub fm (utcFormat now)
    match searchBlock upFullC body, searchBlock pastFullC body with
    | some ub, some pb =>
      match processEvents (findEvents ub) upcomingS with
      | .error e => .error e
      | .ok ups =>
        match processEvents (findEvents pb) pastS with
        | .error e => .error e
        | .ok pas => .ok (fm2, ups, pas)
    | _, _ => .error .malformedDocument
  | _ => .error .malformedDocument

/-- `"upcoming" if date >= today else "past"`. -/
def computeSection (today dt : Date) : List Char :=
  if dateGe dt today then upcomingS else pastS

def withSect (e : Ev) (s : List Char) : Ev := { e with sect := s }

/-- Python dict assignment `all_events[event["id"]] = event`: replace in
place if the key exists, append otherwise. -/
def dictInsert (d : List Ev) (e : Ev) : List Ev :=
  if d.any (fun x => x.id == e.id) then d.map (fun x => if x.id == e.id then e else x)
  else d ++ [e]

/-- The three merge loops of `merge_and_generate_markdown`: seed from
existing upcoming ++ past with recomputed section, overwrite by fetched
events, then recompute every section against today. -/
def mergedEvents (newEvents exUp exPast : List Ev) (today : Date) : List Ev :=
  let seeded := (exUp ++ exPast).foldl
    (fun d e => dictInsert d (withSect e (computeSection today e.date))) []
  let merged := newEvents.foldl dictInsert seeded
  merged.map (fun e => withSect e (computeSection today e.date))

/-- The per-event f-string of the generator. -/
def renderEvent (e : Ev) : List Char :=
  e.name ++ idLab ++ e.id ++ dateLab ++ formatDate e.date ++
  descLab ++ e.description ++ locLab ++ e.location

/-- Python `"\n\n".join(l)`. -/
def joinNlNl : List (List Char) → List Char
  | [] => []
  | [x] => x
  | x :: y :: t => x ++ nl2 ++ joinNlNl (y :: t)

/-- `merge_and_generate_markdown(frontmatter, new_events, existing_upcoming,
existing_past)` with `today` explicit. -/
def merge_and_generate_markdown (fm : List Char) (newEvents exUp exPast : List Ev)
    (today : Date) : List Char :=
  let evs := mergedEvents newEvents exUp exPast today
  let upMd := joinNlNl ((evs.filter (fun e => e.sect == upcomingS)).map renderEvent)
  let pastMd := joinNlNl ((evs.filter (fun e => e.sect == pastS)).map renderEvent)
  delimC ++ fm ++ delimC ++ nlC ++ upFullC ++ upMd ++ nl2 ++ pastFullC ++ pastMd ++ nlC

/-- Python `str.split("\n")`-style line decomposition (for counting
stand-alone `---` delimiter lines). -/
def splitLines : List Char → List (List Char)
  | [] => [[]]
  | c :: rest =>
    if c = '\n' then [] :: splitLines rest
    else
      match splitLines rest with
      | [] => [[c]]
      | l :: ls => (c :: l) :: ls

-- Concrete instances used by the claim theorems and witnesses.

def fmC1 : List Char := "t: e\npublishDate: old\n".data
def tsC1 : Timestamp := ⟨2024, 5, 5, 12, 30, 9⟩
def todayC1 : Date := ⟨2024, 5, 5⟩
def evC1a : Ev := { id := "1".data, name := "## A".data, date := ⟨2030, 1, 1⟩,
                    description := "da".data, location := "la".data, sect := upcomingS }
def evC1b : Ev := { id := "2".data, name := "## B".data, date := ⟨2030, 2, 2⟩,
                    description := "db".data, location := "lb".data, sect := upcomingS }
def docC1 : List Char := merge_and_generate_markdown fmC1 [] [evC1a, evC1b] [] todayC1
def nameC1b : List Char := "## B".data
def fmC1out : List Char := pubDateSub fmC1 (utcFormat tsC1)

def todayC2 : Date := ⟨2024, 5, 5⟩
def evC2 : Ev := { id := "9".data, name := "## C".data, date := ⟨2021, 3, 4⟩,
                   description := "dc".data, location := "lc".data, sect := upcomingS }

def docC8 : List Char := "---\nx\n---\n\n# Upcoming Events\n\n## Party\nID: 7\nDate: Jan 02, 2030\nDescription:\nfun\nLocation: here\n\n# Past Events\n\n\n".data
def tsC8 : Timestamp := ⟨2024, 1, 1, 0, 0, 0⟩
def fmC8out : List Char := "x\n".data
def headingPartyC : List Char := "## Party".data
def partyTitleC : List Char := "Party".data
def evC8parsed : Ev := { id := "7".data, name := headingPartyC, date := ⟨2030, 1, 2⟩,
                         description := "fun".data, location := "here".data, sect := upcomingS }

def docC9 : List Char := "a---\nb---\n\n# Upcoming Events\n\n\n\n# Past Events\n\n\n".data
def tsC9 : Timestamp := ⟨2024, 1, 1, 0, 0, 0⟩
def fmC9out : List Char := "b".data

/-- All event fields that reach the rendered text are free of `#`. -/
def hashFreeEv (e : Ev) : Prop :=
  ('#' : Char) ∉ e.id ∧ ('#' : Char) ∉ e.name ∧
  ('#' : Char) ∉ e.description ∧ ('#' : Char) ∉ e.location

def fmC10 : List Char := "t: x\n".data
def todayC10b : Date := ⟨2024, 5, 5⟩
def tsC10 : Timestamp := ⟨2024, 5, 5, 1, 2, 3⟩
def evC10 : Ev := { id := "11".data, name := "E one".data, date := ⟨2030, 1, 1⟩,
                    description := "d one".data, location := "l one".data, sect := upcomingS }

def xC9 : List Char := "no delimiters here\n".data
def yC9 : List Char := "---\nfm\n---\n\nwrong body\n# Past Events\n\n\n".data

def fmC10bad : List Char := "t\n# Upcoming Events\n\nx\n".data
def todayC10 : Date := ⟨2024, 5, 5⟩
def docC10bad : List Char := merge_and_generate_markdown fmC10bad [] [] [] todayC10

def fmC7 : List Char := "a\npublishDate: x\nb\n".data
def tsC7 : Timestamp := ⟨2025, 12, 31, 23, 59, 58⟩
def todayC7 : Date := ⟨2024, 1, 1⟩

def todayC3 : Date := ⟨2024, 5, 5⟩
def evC3old : Ev := { id := "5".data, name := "## O".data, date := ⟨2023, 1, 1⟩,
                      description := "do".data, location := "lo".data, sect := pastS }
def evC3new : Ev := { id := "5".data, name := "## N".data, date := ⟨2030, 1, 1⟩,
                      description := "dn".data, location := "ln".data, sect := upcomingS }

def todayC4 : Date := ⟨2024, 5, 5⟩
def fmC4 : List Char := "t: e\npublishDate: old\n".data
def evC4 : Ev := { id := "1".data, name := "## P".data, date := ⟨2023, 1, 1⟩,
                   description := "dp".data, location := "lp".data, sect := pastS }
def docC4 : List Char := merge_and_generate_markdown fmC4 [] [] [evC4] todayC4
def idLineC4 : List Char := "\nID: 1\n".data

/-- The iteration order of the merged map as the spec describes it: stored
events first, in parsed order (upcoming then past), each either overwritten
in place by the same-id fetched record or kept, with fetched-only events
appended afterwards in fetched order; every section recomputed against
today.  (Spec-side characterization, to be compared with `mergedEvents`.) -/
def mergedListC (newEvents exUp exPast : List Ev) (today : Date) : List Ev :=
  ((exUp ++ exPast).map (fun e =>
    match newEvents.find? (fun n => n.id == e.id) with
    | some n => withSect n (computeSection today n.date)
    | none => withSect e (computeSection today e.date))) ++
  ((newEvents.filter (fun n => !((exUp ++ exPast).any (fun x => x.id == n.id)))).map
    (fun n => withSect n (computeSection today n.date)))

def todayC6 : Date := ⟨2024, 5, 5⟩
def fmC6 : List Char := "fm\n".data
def evC6a : Ev := { id := "7".data, name := "## H".data, date := ⟨2030, 6, 6⟩,
                    description := "dh".data, location := "lh".data, sect := upcomingS }
def evC6n : Ev := { id := "8".data, name := "## I".data, date := ⟨2025, 1, 1⟩,
                    description := "di".data, location := "li".data, sect := upcomingS }

def todayC5 : Date := ⟨2024, 5, 5⟩
def evC5 : Ev := { id := "3".data, name := "## F".data, date := ⟨2023, 2, 2⟩,
                   description := "df".data, location := "lf".data, sect := upcomingS }
def evC5n : Ev := { id := "4".data, name := "## G".data, date := ⟨2030, 3, 3⟩,
                    description := "dg".data, location := "lg".data, sect := upcomingS }

/-- C1: rendering two well-formed upcoming records with
`merge_and_generate_markdown` and parsing the result with `parse_markdown`
loses the second record: the section-block regex `(.*?)(\n\n#|$)` stops at
the `\n\n##` junction that precedes the second event heading, so only the
first event of each section survives the round trip, although the second
one is present in the rendered document. -/
theorem spec_C1_roundtrip_bug :
    containsSub docC1 nameC1b = true ∧
    parse_markdown docC1 tsC1 = Except.ok (fmC1out, [evC1a], []) := by
  constructor
  · rfl
  · rfl

/-- C2: every record produced by the merge engine carries a `section` equal
to `"upcoming"` exactly when its date is on or after today, and `"past"`
otherwise, whatever section labels the stored or fetched records carried. -/
theorem spec_C2_section_consistent (newEvents exUp exPast : List Ev) (today : Date)
    (e : Ev) (he : e ∈ mergedEvents newEvents exUp exPast today) :
    e.sect = (if dateGe e.date today then upcomingS else pastS) := by
  unfold mergedEvents at he
  obtain ⟨x, _, rfl⟩ := List.mem_map.1 he
  simp [withSect, computeSection]

/-- C2 witness: concrete instantiation of `spec_C2_section_consistent`. -/
theorem spec_C2_witness :
    (withSect evC2 pastS) ∈ mergedEvents [evC2] [] [] todayC2 ∧
    (withSect evC2 pastS).sect =
      (if dateGe (withSect evC2 pastS).date todayC2 then upcomingS else pastS) :=
  ⟨by decide, spec_C2_section_consistent [evC2] [] [] todayC2 _ (by decide)⟩

/-- C8 counterexample: parsing an event block headed `## Party` yields a
record whose `name` is the whole trimmed heading `"## Party"`, marker
included — not the bare display title `"Party"` the claim describes. -/
theorem spec_C8_counterexample :
    parse_markdown docC8 tsC8 = Except.ok (fmC8out, [evC8parsed], []) ∧
    evC8parsed.name = headingPartyC ∧ headingPartyC ≠ partyTitleC := by
  refine ⟨by rfl, by rfl, by decide⟩

/-- C9 counterexample: a document with zero stand-alone `---` delimiter
lines (fewer than two) on which `parse_markdown` nevertheless succeeds:
the code splits on the substring `"---\n"`, which also matches at the end
of the lines `a---` and `b---`. -/
theorem spec_C9_counterexample :
    (splitLines docC9).count dash3 = 0 ∧
    parse_markdown docC9 tsC9 = Except.ok (fmC9out, [], []) := by
  refine ⟨by decide, by rfl⟩

/-- C10 counterexample: with a frontmatter that itself contains the text
`# Upcoming Events`, the generated document contains that heading twice,
not exactly once as the claim states for every frontmatter. -/
theorem spec_C10_counterexample : countOcc upHeadC docC10bad ≠ 1 := by
  decide

-- Basic facts about `withSect` and the id-keyed dict.

lemma withSect_id (e : Ev) (s : List Char) : (withSect e s).id = e.id := rfl

lemma withSect_date (e : Ev) (s : List Char) : (withSect e s).date = e.date := rfl

lemma withSect_sect (e : Ev) (s : List Char) : (withSect e s).sect = s := rfl

lemma withSect_withSect (e : Ev) (s t : List Char) :
    withSect (withSect e s) t = withSect e t := rfl

lemma withSect_self (e : Ev) : withSect e e.sect = e := rfl

lemma any_id_iff (d : List Ev) (i : List Char) :
    d.any (fun x => x.id == i) = true ↔ ∃ x ∈ d, x.id = i := by
  simp [List.any_eq_true]

lemma any_id_false (d : List Ev) (i : List Char) (h : d.any (fun x => x.id == i) = false) :
    ∀ x ∈ d, x.id ≠ i := by
  intro x hx
  have := List.any_eq_false.1 h x hx
  simpa using this

/-- Inserting `x` always leaves `x` as the unique record at key `x.id`. -/
lemma dictInsert_self_uniq (d : List Ev) (x : Ev) :
    x ∈ dictInsert d x ∧ ∀ y ∈ dictInsert d x, y.id = x.id → y = x := by
  unfold dictInsert
  cases hb : d.any (fun z => z.id == x.id) with
  | true =>
    simp only [if_pos rfl, hb]
    obtain ⟨w, hw, hwid⟩ := (any_id_iff d x.id).1 hb
    refine ⟨List.mem_map.2 ⟨w, hw, by simp [hwid]⟩, ?_⟩
    intro y hy hyid
    obtain ⟨z, hz, rfl⟩ := List.mem_map.1 hy
    by_cases hzx : z.id = x.id
    · simp [hzx]
    · simp only [show (z.id == x.id) = false by simpa using hzx, Bool.false_eq_true,
        if_false] at hyid ⊢
      exact absurd hyid hzx
  | false =>
    simp only [hb, Bool.false_eq_true, if_false]
    refine ⟨List.mem_append_right _ (List.mem_singleton.2 rfl), ?_⟩
    intro y hy hyid
    rcases List.mem_append.1 hy with h | h
    · exact absurd hyid (any_id_false d x.id hb y h)
    · exact List.mem_singleton.1 h

/-- Inserting a record with a different key preserves the unique record at
key `x.id`. -/
lemma dictInsert_pres_uniq (d : List Ev) (g x : Ev) (hgx : g.id ≠ x.id)
    (h1 : x ∈ d) (h2 : ∀ y ∈ d, y.id = x.id → y = x) :
    x ∈ dictInsert d g ∧ ∀ y ∈ dictInsert d g, y.id = x.id → y = x := by
  have hxg : x.id ≠ g.id := fun h => hgx h.symm
  unfold dictInsert
  cases hb : d.any (fun z => z.id == g.id) with
  | true =>
    simp only [hb, if_pos rfl]
    constructor
    · exact List.mem_map.2 ⟨x, h1, by simp [show (x.id == g.id) = false by simpa using hxg]⟩
    · intro y hy hyid
      obtain ⟨z, hz, rfl⟩ := List.mem_map.1 hy
      by_cases hzg : z.id = g.id
      · simp only [show (z.id == g.id) = true by simpa using hzg, if_pos rfl] at hyid ⊢
        exact absurd hyid hgx
      · simp only [show (z.id == g.id) = false by simpa using hzg, Bool.false_eq_true,
          if_false] at hyid ⊢
        exact h2 z hz hyid
  | false =>
    simp only [hb, Bool.false_eq_true, if_false]
    refine ⟨List.mem_append_left _ h1, ?_⟩
    intro y hy hyid
    rcases List.mem_append.1 hy with h | h
    · exact h2 y h hyid
    · rw [List.mem_singleton.1 h] at hyid ⊢
      exact absurd hyid hgx

/-- Folding further insertions whose same-key records are all equal to `x`
keeps `x` as the unique record at key `x.id`. -/
lemma foldl_dictInsert_uniq (t : List Ev) : ∀ (d : List Ev) (x : Ev),
    x ∈ d → (∀ y ∈ d, y.id = x.id → y = x) → (∀ g ∈ t, g.id = x.id → g = x) →
    x ∈ t.foldl dictInsert d ∧ ∀ y ∈ t.foldl dictInsert d, y.id = x.id → y = x := by
  induction t with
  | nil => exact fun d x h1 h2 _ => ⟨h1, h2⟩
  | cons g t ih =>
    intro d x h1 h2 h3
    simp only [List.foldl_cons]
    by_cases hg : g.id = x.id
    · have hgx : g = x := h3 g (List.mem_cons_self g t) hg
      subst hgx
      obtain ⟨m1, m2⟩ := dictInsert_self_uniq d g
      exact ih (dictInsert d g) g m1 m2 fun y hy => h3 y (List.mem_cons_of_mem _ hy)
    · obtain ⟨m1, m2⟩ := dictInsert_pres_uniq d g x hg h1 h2
      exact ih _ x m1 m2 fun y hy => h3 y (List.mem_cons_of_mem _ hy)

/-- C3: when an id occurs both in the stored lists and among the fetched
records, the merged map holds exactly the fetched record at that id — a
full overwrite of every field (the fetched record's section label being
consistent with today, as the adapter guarantees for its output). -/
theorem spec_C3_overwrite_wins (newEvents exUp exPast : List Ev) (today : Date) (f : Ev)
    (hmem : f ∈ newEvents)
    (huniq : ∀ g ∈ newEvents, g.id = f.id → g = f)
    (hstored : (exUp ++ exPast).any (fun e => e.id == f.id) = true)
    (hsec : f.sect = computeSection today f.date) :
    f ∈ mergedEvents newEvents exUp exPast today ∧
    ∀ x ∈ mergedEvents newEvents exUp exPast today, x.id = f.id → x = f := by
  have hwf : withSect f (computeSection today f.date) = f := by
    rw [← hsec]; exact withSect_self f
  obtain ⟨s, t, rfl⟩ := List.append_of_mem hmem
  have hfold : f ∈ (s ++ f :: t).foldl dictInsert
        ((exUp ++ exPast).foldl
          (fun d e => dictInsert d (withSect e (computeSection today e.date))) []) ∧
      ∀ y ∈ (s ++ f :: t).foldl dictInsert
        ((exUp ++ exPast).foldl
          (fun d e => dictInsert d (withSect e (computeSection today e.date))) []),
        y.id = f.id → y = f := by
    rw [List.foldl_append]
    simp only [List.foldl_cons]
    obtain ⟨m1, m2⟩ := dictInsert_self_uniq
      (s.foldl dictInsert ((exUp ++ exPast).foldl
        (fun d e => dictInsert d (withSect e (computeSection today e.date))) [])) f
    exact foldl_dictInsert_uniq t _ f m1 m2
      fun g hg => huniq g (by simp [hg])
  constructor
  · exact List.mem_map.2 ⟨f, hfold.1, hwf⟩
  · intro x hx hxid
    obtain ⟨z, hz, rfl⟩ := List.mem_map.1 hx
    have hzid : z.id = f.id := hxid
    have hzf := hfold.2 z hz hzid
    subst hzf
    exact hwf

/-- C3 witness: concrete instantiation of `spec_C3_overwrite_wins`. -/
theorem spec_C3_witness :
    evC3new ∈ mergedEvents [evC3new] [evC3old] [] todayC3 ∧
    mergedEvents [evC3new] [evC3old] [] todayC3 = [evC3new] :=
  ⟨(spec_C3_overwrite_wins [evC3new] [evC3old] [] todayC3 evC3new (by decide) (by decide)
      (by decide) (by decide)).1,
   by decide⟩

/-- Folding dict insertions of a list with pairwise distinct ids over an
arbitrary dict: present keys are overwritten in place, absent keys are
appended in order. -/
lemma foldl_dictInsert_eq (l : List Ev) : ∀ d : List Ev, (l.map Ev.id).Nodup →
    l.foldl dictInsert d =
      d.map (fun e => match l.find? (fun n => n.id == e.id) with
        | some n => n
        | none => e) ++
      l.filter (fun n => !d.any (fun x => x.id == n.id)) := by
  induction l with
  | nil =>
    intro d _
    simp
  | cons n l ih =>
    intro d hnd
    rw [List.map_cons, List.nodup_cons] at hnd
    obtain ⟨hn, hl⟩ := hnd
    have hnid : ∀ m ∈ l, m.id ≠ n.id := by
      intro m hm heq
      exact hn (heq ▸ List.mem_map_of_mem Ev.id hm)
    have hfn : l.find? (fun m => m.id == n.id) = none :=
      List.find?_eq_none.2 fun m hm => by simpa using hnid m hm
    simp only [List.foldl_cons]
    rw [ih (dictInsert d n) hl]
    cases hb : d.any (fun x => x.id == n.id) with
    | true =>
      have hins : dictInsert d n = d.map (fun x => if x.id == n.id then n else x) := by
        simp [dictInsert, hb]
      rw [hins, List.map_map]
      congr 1
      · apply List.map_congr_left
        intro x hx
        by_cases hxid : x.id = n.id
        · have hrw : List.find? (fun m => m.id == x.id) (n :: l) = some n :=
            List.find?_cons_of_pos _ (by simpa using hxid.symm)
          simp only [Function.comp_apply,
            show (x.id == n.id) = true by simpa using hxid, if_true, hrw, hfn]
        · have hrw : List.find? (fun m => m.id == x.id) (n :: l) =
              List.find? (fun m => m.id == x.id) l :=
            List.find?_cons_of_neg _ (by simpa using fun h => hxid h.symm)
          simp only [Function.comp_apply,
            show (x.id == n.id) = false by simpa using hxid, Bool.false_eq_true, if_false,
            hrw]
      · rw [List.filter_cons]
        simp only [show (!d.any fun x => x.id == n.id) = false by simp [hb],
          Bool.false_eq_true, if_false]
        apply List.filter_congr
        intro m _
        have hany : (d.map fun x => if x.id == n.id then n else x).any
            (fun x => x.id == m.id) = d.any (fun x => x.id == m.id) := by
          rw [List.any_map]
          congr 1
          funext x
          by_cases hx : x.id = n.id
          · simp [Function.comp_apply, hx]
          · simp [Function.comp_apply, hx]
        rw [hany]
    | false =>
      have hins : dictInsert d n = d ++ [n] := by
        simp [dictInsert, hb]
      have hdn : ∀ x ∈ d, x.id ≠ n.id := any_id_false d n.id hb
      rw [hins, List.map_append, List.filter_cons]
      simp only [show (!d.any fun x => x.id == n.id) = true by simp [hb], if_true,
        List.map_cons, List.map_nil, hfn]
      rw [List.append_assoc, List.singleton_append]
      congr 1
      · apply List.map_congr_left
        intro x hx
        have hrw : List.find? (fun m => m.id == x.id) (n :: l) =
            List.find? (fun m => m.id == x.id) l :=
          List.find?_cons_of_neg _ (by simpa using fun h => hdn x hx h.symm)
        rw [hrw]
      · congr 1
        apply List.filter_congr
        intro m hm
        rw [List.any_append]
        simp [show (n.id == m.id) = false by simpa using fun h => hnid m hm h.symm]

/-- The seeding loop over stored events with pairwise distinct ids just
lists them in order, sections recomputed. -/
lemma seeded_eq (exUp exPast : List Ev) (today : Date)
    (hS : ((exUp ++ exPast).map Ev.id).Nodup) :
    (exUp ++ exPast).foldl
      (fun d e => dictInsert d (withSect e (computeSection today e.date))) [] =
    (exUp ++ exPast).map (fun e => withSect e (computeSection today e.date)) := by
  rw [← List.foldl_map (fun e => withSect e (computeSection today e.date)) dictInsert]
  have hmap : (((exUp ++ exPast).map
      (fun e => withSect e (computeSection today e.date))).map Ev.id).Nodup := by
    rw [List.map_map]
    exact hS
  rw [foldl_dictInsert_eq _ [] hmap]
  simp

/-- The merged map is exactly the order the spec describes. -/
lemma mergedEvents_eq (newEvents exUp exPast : List Ev) (today : Date)
    (hS : ((exUp ++ exPast).map Ev.id).Nodup) (hN : (newEvents.map Ev.id).Nodup) :
    mergedEvents newEvents exUp exPast today = mergedListC newEvents exUp exPast today := by
  unfold mergedEvents mergedListC
  rw [seeded_eq exUp exPast today hS]
  dsimp only
  rw [foldl_dictInsert_eq newEvents _ hN, List.map_append]
  congr 1
  · rw [List.map_map, List.map_map]
    apply List.map_congr_left
    intro e _
    simp only [Function.comp_apply, withSect_id]
    cases hf : newEvents.find? (fun n => n.id == e.id) with
    | some n => simp only [hf]
    | none => simp only [hf, withSect_withSect, withSect_date]
  · congr 1
    apply List.filter_congr
    intro m _
    rw [List.any_map]
    have hcomp : ((fun x => x.id == m.id) ∘ fun e => withSect e (computeSection today e.date))
        = fun x : Ev => x.id == m.id := by
      funext x
      rfl
    rw [hcomp]
  

/-- C4: with an empty fetched list, the merge keeps every stored record —
in order, with only the section recomputed — so nothing is lost when the
API returns nothing. -/
theorem spec_C4_empty_fetch_preserves (exUp exPast : List Ev) (today : Date)
    (hS : ((exUp ++ exPast).map Ev.id).Nodup) :
    mergedEvents [] exUp exPast today =
      (exUp ++ exPast).map (fun e => withSect e (computeSection today e.date)) := by
  rw [mergedEvents_eq [] exUp exPast today hS (by simp)]
  unfold mergedListC
  simp

/-- C4 witness: the stored past event id 1 of 2023-01-01 survives a merge
with an empty fetched list, and appears exactly once in the generated
document, after the `# Past Events` heading (at positions 52 < 71). -/
theorem spec_C4_witness :
    mergedEvents [] [] [evC4] todayC4 =
      ([] ++ [evC4]).map (fun e => withSect e (computeSection todayC4 e.date)) ∧
    countOcc idLineC4 docC4 = 1 ∧
    findSub pastFullC docC4 = some 52 ∧ findSub idLineC4 docC4 = some 71 :=
  ⟨spec_C4_empty_fetch_preserves [] [evC4] todayC4 (by decide), by decide, by decide, by decide⟩

/-- C5: a stored upcoming event whose date lies strictly before today is
reclassified to `past` by the merge, with every other field unchanged
(provided no fetched record overwrites its id). -/
theorem spec_C5_section_flip (newEvents exUp exPast : List Ev) (today : Date) (e : Ev)
    (hmem : e ∈ exUp)
    (hlab : e.sect = upcomingS)
    (hdate : dateGe e.date today = false)
    (hS : ((exUp ++ exPast).map Ev.id).Nodup)
    (hnew : ∀ g ∈ newEvents, g.id ≠ e.id) :
    withSect e pastS ∈ mergedEvents newEvents exUp exPast today ∧
    ∀ x ∈ mergedEvents newEvents exUp exPast today, x.id = e.id → x = withSect e pastS := by
  have hcs : computeSection today e.date = pastS := by
    simp [computeSection, hdate]
  have hstruct : mergedEvents newEvents exUp exPast today =
      (newEvents.foldl dictInsert
        ((exUp ++ exPast).map (fun e => withSect e (computeSection today e.date)))).map
        (fun e => withSect e (computeSection today e.date)) := by
    unfold mergedEvents
    rw [seeded_eq exUp exPast today hS]
  have hmem2 : e ∈ exUp ++ exPast := List.mem_append_left _ hmem
  have hx0 : withSect e pastS ∈
      (exUp ++ exPast).map (fun x => withSect x (computeSection today x.date)) :=
    List.mem_map.2 ⟨e, hmem2, by rw [hcs]⟩
  have huq : ∀ y ∈ (exUp ++ exPast).map (fun x => withSect x (computeSection today x.date)),
      y.id = (withSect e pastS).id → y = withSect e pastS := by
    intro y hy hyid
    obtain ⟨w, hw, rfl⟩ := List.mem_map.1 hy
    have hwid : w.id = e.id := hyid
    have hwe : w = e := List.inj_on_of_nodup_map hS hw hmem2 hwid
    subst hwe
    rw [hcs]
  obtain ⟨m1, m2⟩ := foldl_dictInsert_uniq newEvents _ (withSect e pastS) hx0 huq
    (fun g hg hgid => absurd (show g.id = e.id from hgid) (hnew g hg))
  have hfix : withSect (withSect e pastS)
      (computeSection today (withSect e pastS).date) = withSect e pastS := by
    rw [withSect_withSect, withSect_date, hcs]
  rw [hstruct]
  constructor
  · exact List.mem_map.2 ⟨withSect e pastS, m1, hfix⟩
  · intro z hz hzid
    obtain ⟨w, hw, rfl⟩ := List.mem_map.1 hz
    have hwid : w.id = (withSect e pastS).id := hzid
    have := m2 w hw hwid
    subst this
    exact hfix

/-- C5 witness: concrete instantiation of `spec_C5_section_flip`. -/
theorem spec_C5_witness :
    withSect evC5 pastS ∈ mergedEvents [evC5n] [evC5] [] todayC5 ∧
    mergedEvents [evC5n] [evC5] [] todayC5 = [withSect evC5 pastS, evC5n] :=
  ⟨(spec_C5_section_flip [evC5n] [evC5] [] todayC5 evC5 (by decide) (by decide) (by decide)
      (by decide) (by decide)).1,
   by decide⟩

/-- C6: the generated document renders, inside each section block, exactly
the merged-map iteration order: stored events first in parsed order
(upcoming then past, overwritten in place when a fetched event shares the
id), fetched-only events appended afterwards in fetched order; events are
not sorted by date. -/
theorem spec_C6_insertion_order (fm : List Char) (newEvents exUp exPast : List Ev)
    (today : Date)
    (hS : ((exUp ++ exPast).map Ev.id).Nodup) (hN : (newEvents.map Ev.id).Nodup) :
    merge_and_generate_markdown fm newEvents exUp exPast today =
      delimC ++ fm ++ delimC ++ nlC ++ upFullC ++
      joinNlNl (((mergedListC newEvents exUp exPast today).filter
        (fun e => e.sect == upcomingS)).map renderEvent) ++ nl2 ++ pastFullC ++
      joinNlNl (((mergedListC newEvents exUp exPast today).filter
        (fun e => e.sect == pastS)).map renderEvent) ++ nlC := by
  unfold merge_and_generate_markdown
  rw [mergedEvents_eq newEvents exUp exPast today hS hN]

/-- C6 witness: concrete instantiation of `spec_C6_insertion_order`; the
fetched-only event is appended after the stored one although its date is
earlier, so blocks follow insertion order, not date order. -/
theorem spec_C6_witness :
    merge_and_generate_markdown fmC6 [evC6n] [evC6a] [] todayC6 =
      delimC ++ fmC6 ++ delimC ++ nlC ++ upFullC ++
      joinNlNl (((mergedListC [evC6n] [evC6a] [] todayC6).filter
        (fun e => e.sect == upcomingS)).map renderEvent) ++ nl2 ++ pastFullC ++
      joinNlNl (((mergedListC [evC6n] [evC6a] [] todayC6).filter
        (fun e => e.sect == pastS)).map renderEvent) ++ nlC ∧
    mergedEvents [evC6n] [evC6a] [] todayC6 = [evC6a, evC6n] ∧
    dateGe evC6n.date evC6a.date = false :=
  ⟨spec_C6_insertion_order fmC6 [evC6n] [evC6a] [] todayC6 (by decide) (by decide),
   by decide, by decide⟩

-- Substring search facts.

lemma isPre_append (p t : List Char) : p.isPrefixOf (p ++ t) = true := by
  induction p with
  | nil => simp
  | cons a as ih => simp [List.isPrefixOf, ih]

lemma eq_append_of_isPre (p : List Char) : ∀ s : List Char, p.isPrefixOf s = true →
    ∃ t, s = p ++ t := by
  induction p with
  | nil => exact fun s _ => ⟨s, rfl⟩
  | cons a as ih =>
    intro s h
    cases s with
    | nil => simp [List.isPrefixOf] at h
    | cons b bs =>
      simp only [List.isPrefixOf, Bool.and_eq_true, beq_iff_eq] at h
      obtain ⟨rfl, h2⟩ := h
      obtain ⟨t, rfl⟩ := ih bs h2
      exact ⟨t, rfl⟩

lemma findSub_decomp (pat : List Char) : ∀ (s : List Char) (i : Nat),
    findSub pat s = some i → ∃ a b, s = a ++ pat ++ b ∧ a.length = i := by
  intro s
  induction s with
  | nil =>
    intro i h
    unfold findSub at h
    by_cases hp : pat.isEmpty
    · rw [if_pos hp] at h
      obtain rfl : (0 : Nat) = i := Option.some.inj h
      exact ⟨[], [], by simp [List.isEmpty_iff.1 hp], rfl⟩
    · rw [if_neg hp] at h
      exact absurd h (by simp)
  | cons c cs ih =>
    intro i h
    unfold findSub at h
    by_cases hp : pat.isPrefixOf (c :: cs) = true
    · rw [if_pos hp] at h
      obtain rfl : (0 : Nat) = i := Option.some.inj h
      obtain ⟨t, ht⟩ := eq_append_of_isPre pat (c :: cs) hp
      exact ⟨[], t, by simp [ht], rfl⟩
    · rw [if_neg hp] at h
      obtain ⟨j, hj, rfl⟩ := Option.map_eq_some'.1 h
      obtain ⟨a, b, hab, hlen⟩ := ih j hj
      exact ⟨c :: a, b, by simp [hab], by simp [hlen]⟩

lemma findSub_append_self (p : Char) (ps : List Char) : ∀ a b : List Char,
    (findSub (p :: ps) (a ++ (p :: ps) ++ b)).isSome = true := by
  intro a
  induction a with
  | nil =>
    intro b
    have : findSub (p :: ps) ([] ++ (p :: ps) ++ b) =
        if (p :: ps).isPrefixOf (p :: (ps ++ b)) then some 0
        else (findSub (p :: ps) (ps ++ b)).map (· + 1) := rfl
    rw [this, if_pos (show (p :: ps).isPrefixOf (p :: (ps ++ b)) = true from
      isPre_append (p :: ps) b)]
    rfl
  | cons x a ih =>
    intro b
    have : findSub (p :: ps) ((x :: a) ++ (p :: ps) ++ b) =
        if (p :: ps).isPrefixOf (x :: (a ++ (p :: ps) ++ b)) then some 0
        else (findSub (p :: ps) (a ++ (p :: ps) ++ b)).map (· + 1) := rfl
    rw [this]
    by_cases hp : (p :: ps).isPrefixOf (x :: (a ++ (p :: ps) ++ b)) = true
    · rw [if_pos hp]
      rfl
    · rw [if_neg hp]
      simpa using ih b

lemma containsSub_of_decomp (a pat b : List Char) (p : Char) (ps : List Char)
    (hpat : pat = p :: ps) : containsSub (a ++ pat ++ b) pat = true := by
  subst hpat
  exact findSub_append_self p ps a b

lemma containsSub_append_left (s t pat : List Char) (p : Char) (ps : List Char)
    (hpat : pat = p :: ps) (h : containsSub s pat = true) :
    containsSub (s ++ t) pat = true := by
  obtain ⟨i, hi⟩ := Option.isSome_iff_exists.1 h
  obtain ⟨a, b, rfl, -⟩ := findSub_decomp pat s i hi
  have hassoc : a ++ pat ++ b ++ t = a ++ pat ++ (b ++ t) := by
    simp [List.append_assoc]
  rw [hassoc]
  exact containsSub_of_decomp a pat (b ++ t) p ps hpat

lemma containsSub_append_right (s t pat : List Char) (p : Char) (ps : List Char)
    (hpat : pat = p :: ps) (h : containsSub t pat = true) :
    containsSub (s ++ t) pat = true := by
  obtain ⟨i, hi⟩ := Option.isSome_iff_exists.1 h
  obtain ⟨a, b, rfl, -⟩ := findSub_decomp pat t i hi
  have hassoc : s ++ (a ++ pat ++ b) = (s ++ a) ++ pat ++ b := by
    simp [List.append_assoc]
  rw [hassoc]
  exact containsSub_of_decomp (s ++ a) pat b p ps hpat

/-- Whenever the label occurs, the substituted text contains
`publishDate: <now>`. -/
lemma pubDateSub_decomp (s now : List Char) (h : containsSub s pubLab = true) :
    ∃ a b, pubDateSub s now = a ++ (pubLab ++ ' ' :: now) ++ b := by
  cases s with
  | nil => exact absurd h (by decide)
  | cons c cs =>
    obtain ⟨i, hi⟩ := Option.isSome_iff_exists.1 h
    have : pubDateSub (c :: cs) now =
        match findSub pubLab (c :: cs) with
        | none => c :: cs
        | some i =>
          (c :: cs).take i ++ pubLab ++ ' ' :: now ++
            pubDateSubF cs.length (((c :: cs).drop (i + pubLab.length)).dropWhile
              (fun ch => ch != '\n')) now := rfl
    rw [this, hi]
    exact ⟨(c :: cs).take i,
      pubDateSubF cs.length (((c :: cs).drop (i + pubLab.length)).dropWhile
        (fun ch => ch != '\n')) now,
      by simp [List.append_assoc]⟩

lemma isDigitC_digitChar_mod (n : Nat) : isDigitC (Nat.digitChar (n % 10)) = true := by
  have h : n % 10 < 10 := Nat.mod_lt _ (by norm_num)
  set k := n % 10 with hk
  interval_cases k <;> rfl

lemma isUtcShape_utcFormat (ts : Timestamp) : isUtcShape (utcFormat ts) = true := by
  show (isDigitC (Nat.digitChar (ts.y / 1000 % 10)) &&
        isDigitC (Nat.digitChar (ts.y / 100 % 10)) &&
        isDigitC (Nat.digitChar (ts.y / 10 % 10)) &&
        isDigitC (Nat.digitChar (ts.y % 10)) &&
        isDigitC (Nat.digitChar (ts.mo / 10 % 10)) &&
        isDigitC (Nat.digitChar (ts.mo % 10)) &&
        isDigitC (Nat.digitChar (ts.d / 10 % 10)) &&
        isDigitC (Nat.digitChar (ts.d % 10)) &&
        isDigitC (Nat.digitChar (ts.h / 10 % 10)) &&
        isDigitC (Nat.digitChar (ts.h % 10)) &&
        isDigitC (Nat.digitChar (ts.mi / 10 % 10)) &&
        isDigitC (Nat.digitChar (ts.mi % 10)) &&
        isDigitC (Nat.digitChar (ts.s / 10 % 10)) &&
        isDigitC (Nat.digitChar (ts.s % 10))) = true
  simp [isDigitC_digitChar_mod]

/-- C7: for any frontmatter containing a `publishDate:` label, the document
generated after the parse-step substitution contains
`publishDate: <current UTC instant>` in `YYYY-MM-DDThh:mm:ssZ` shape,
whatever the event lists are — the rewrite is unconditional and
independent of the event data. -/
theorem spec_C7_publishdate (fm : List Char) (ts : Timestamp)
    (newEvents exUp exPast : List Ev) (today : Date)
    (hpub : containsSub fm pubLab = true) :
    containsSub (merge_and_generate_markdown (pubDateSub fm (utcFormat ts))
      newEvents exUp exPast today) (pubLab ++ ' ' :: utcFormat ts) = true ∧
    isUtcShape (utcFormat ts) = true := by
  refine ⟨?_, isUtcShape_utcFormat ts⟩
  have hpat : pubLab ++ ' ' :: utcFormat ts = 'p' :: (pubLabTail ++ ' ' :: utcFormat ts) :=
    rfl
  have h1 : containsSub (pubDateSub fm (utcFormat ts)) (pubLab ++ ' ' :: utcFormat ts)
      = true := by
    obtain ⟨a, b, hab⟩ := pubDateSub_decomp fm (utcFormat ts) hpub
    rw [hab]
    exact containsSub_of_decomp a _ b 'p' _ hpat
  unfold merge_and_generate_markdown
  dsimp only
  apply containsSub_append_left _ _ _ 'p' _ hpat
  apply containsSub_append_left _ _ _ 'p' _ hpat
  apply containsSub_append_left _ _ _ 'p' _ hpat
  apply containsSub_append_left _ _ _ 'p' _ hpat
  apply containsSub_append_left _ _ _ 'p' _ hpat
  apply containsSub_append_left _ _ _ 'p' _ hpat
  apply containsSub_append_left _ _ _ 'p' _ hpat
  apply containsSub_append_left _ _ _ 'p' _ hpat
  exact containsSub_append_right _ _ _ 'p' _ hpat h1

/-- C7 witness: concrete instantiation of `spec_C7_publishdate`. -/
theorem spec_C7_witness :
    containsSub (merge_and_generate_markdown (pubDateSub fmC7 (utcFormat tsC7))
      [] [] [] todayC7) (pubLab ++ ' ' :: utcFormat tsC7) = true ∧
    isUtcShape (utcFormat tsC7) = true :=
  spec_C7_publishdate fmC7 tsC7 [] [] [] todayC7 (by decide)

-- Facts about Python strip.

lemma rstripC_eq_rdropWhile (l : List Char) : rstripC l = List.rdropWhile isWs l := rfl

lemma rstripC_cons_not_ws (a : Char) (l : List Char) (h : isWs a = false) :
    rstripC (a :: l) = a :: rstripC l := by
  unfold rstripC
  rw [show (a :: l).reverse = l.reverse ++ [a] from by simp]
  rw [List.dropWhile_append]
  by_cases he : (l.reverse.dropWhile isWs).isEmpty = true
  · rw [if_pos he]
    rw [List.isEmpty_iff.1 he]
    simp [List.dropWhile_cons, h]
  · rw [if_neg he]
    simp

lemma rstripC_idem (l : List Char) : rstripC (rstripC l) = rstripC l := by
  simp only [rstripC_eq_rdropWhile]
  exact List.rdropWhile_idempotent isWs l

lemma dropWhile_head_false (p : Char → Bool) : ∀ (l : List Char) (c : Char) (cs : List Char),
    l.dropWhile p = c :: cs → p c = false := by
  intro l
  induction l with
  | nil => intro c cs h; cases h
  | cons a as ih =>
    intro c cs h
    rw [List.dropWhile_cons] at h
    by_cases hp : p a = true
    · rw [if_pos hp] at h
      exact ih c cs h
    · rw [if_neg hp] at h
      cases h
      simpa using hp

lemma dropWhile_rstripC (l : List Char) :
    (rstripC (l.dropWhile isWs)).dropWhile isWs = rstripC (l.dropWhile isWs) := by
  cases hu : l.dropWhile isWs with
  | nil => rfl
  | cons c cs =>
    have hc : isWs c = false := dropWhile_head_false isWs l c cs hu
    rw [rstripC_cons_not_ws c cs hc, List.dropWhile_cons, hc]
    simp

lemma pyStrip_idem (l : List Char) : pyStrip (pyStrip l) = pyStrip l := by
  unfold pyStrip
  rw [dropWhile_rstripC l, rstripC_idem]

lemma pyStrip_hashes (t : List Char) :
    pyStrip ('#' :: '#' :: t) = '#' :: '#' :: rstripC t := by
  unfold pyStrip
  rw [show ('#' :: '#' :: t).dropWhile isWs = '#' :: '#' :: t from rfl]
  rw [rstripC_cons_not_ws '#' ('#' :: t) (by decide),
    rstripC_cons_not_ws '#' t (by decide)]

/-- Every successful event match captures the full heading including the
`## ` marker as group 1. -/
lemma matchEventAt_g1 (s : List Char) (g : EvG) (r : List Char)
    (h : matchEventAt s = some (g, r)) : ∃ t, g.g1 = '#' :: '#' :: ' ' :: t := by
  unfold matchEventAt at h
  cases h0 : dropPre headMark s with
  | none => rw [h0] at h; cases h
  | some r0 =>
    rw [h0] at h
    dsimp only at h
    by_cases e1 : (r0.takeWhile nonNl).isEmpty = true
    · rw [if_pos e1] at h; cases h
    · rw [if_neg e1] at h
      cases h1 : dropPre idLab (r0.dropWhile nonNl) with
      | none => rw [h1] at h; cases h
      | some r2 =>
        rw [h1] at h
        dsimp only at h
        by_cases e2 : (r2.takeWhile nonNl).isEmpty = true
        · rw [if_pos e2] at h; cases h
        · rw [if_neg e2] at h
          cases h2 : dropPre dateLab (r2.dropWhile nonNl) with
          | none => rw [h2] at h; cases h
          | some r4 =>
            rw [h2] at h
            dsimp only at h
            by_cases e3 : (r4.takeWhile nonNl).isEmpty = true
            · rw [if_pos e3] at h; cases h
            · rw [if_neg e3] at h
              cases h3 : dropPre descLab (r4.dropWhile nonNl) with
              | none => rw [h3] at h; cases h
              | some r6 =>
                rw [h3] at h
                dsimp only at h
                by_cases e4 : (r6.takeWhile nonNl).isEmpty = true
                · rw [if_pos e4] at h; cases h
                · rw [if_neg e4] at h
                  cases h4 : dropPre locLab (takeParas r6.length (r6.dropWhile nonNl)).2 with
                  | none => rw [h4] at h; cases h
                  | some r9 =>
                    rw [h4] at h
                    dsimp only at h
                    by_cases e5 : (r9.takeWhile nonNl).isEmpty = true
                    · rw [if_pos e5] at h; cases h
                    · rw [if_neg e5] at h
                      refine ⟨r0.takeWhile nonNl, ?_⟩
                      have h5 := Option.some.inj h
                      exact (congrArg (fun q : EvG × List Char => q.1.g1) h5).symm

lemma findEventsF_g1 : ∀ (fuel : Nat) (s : List Char), ∀ g ∈ findEventsF fuel s,
    ∃ t, g.g1 = '#' :: '#' :: ' ' :: t := by
  intro fuel
  induction fuel with
  | zero =>
    intro s g hg
    simp [findEventsF] at hg
  | succ n ih =>
    intro s g hg
    cases s with
    | nil => simp [findEventsF] at hg
    | cons c cs =>
      unfold findEventsF at hg
      dsimp only at hg
      cases hma : matchEventAt (c :: cs) with
      | some gr =>
        obtain ⟨g0, r0⟩ := gr
        rw [hma] at hg
        dsimp only at hg
        rcases List.mem_cons.1 hg with rfl | hg2
        · exact matchEventAt_g1 (c :: cs) g r0 hma
        · exact ih r0 g hg2
      | none =>
        rw [hma] at hg
        dsimp only at hg
        exact ih cs g hg

lemma processEvents_mem : ∀ (gs : List EvG) (sct : List Char) (evs : List Ev),
    processEvents gs sct = .ok evs → ∀ e ∈ evs, ∃ g ∈ gs, e.name = pyStrip g.g1 := by
  intro gs
  induction gs with
  | nil =>
    intro sct evs h e he
    obtain rfl : ([] : List Ev) = evs := by
      simpa [processEvents] using h
    simp at he
  | cons g gs ih =>
    intro sct evs h e he
    unfold processEvents at h
    cases hd : parseDate g.g3 with
    | none => rw [hd] at h; cases h
    | some dt =>
      rw [hd] at h
      cases hp : processEvents gs sct with
      | error eE => rw [hp] at h; cases h
      | ok evs' =>
        rw [hp] at h
        obtain rfl : _ = evs := Except.ok.inj h
        rcases List.mem_cons.1 he with rfl | he2
        · exact ⟨g, List.mem_cons_self g gs, rfl⟩
        · obtain ⟨g', hg', hn⟩ := ih sct evs' hp e he2
          exact ⟨g', List.mem_cons_of_mem _ hg', hn⟩

/-- C8 (amended): every record `parse_markdown` extracts has a `name` that
is the whitespace-trimmed full heading line including the `## ` marker: it
always starts with `"##"` and is invariant under further stripping — it is
not the bare display title. -/
theorem spec_C8_name_marker (content : List Char) (ts : Timestamp)
    (fm : List Char) (ups pas : List Ev)
    (h : parse_markdown content ts = .ok (fm, ups, pas))
    (e : Ev) (he : e ∈ ups ++ pas) :
    (∃ t, e.name = '#' :: '#' :: t) ∧ pyStrip e.name = e.name := by
  have hmain : ∃ g : EvG, e.name = pyStrip g.g1 ∧ ∃ t, g.g1 = '#' :: '#' :: ' ' :: t := by
    unfold parse_markdown at h
    cases hs : split3 delimC content with
    | nil => rw [hs] at h; cases h
    | cons p0 t0 =>
      cases t0 with
      | nil => rw [hs] at h; cases h
      | cons p1 t1 =>
        cases t1 with
        | nil => rw [hs] at h; cases h
        | cons p2 t2 =>
          cases t2 with
          | cons p3 t3 => rw [hs] at h; cases h
          | nil =>
            rw [hs] at h
            dsimp only at h
            cases hub : searchBlock upFullC p2 with
            | none => rw [hub] at h; cases h
            | some ub =>
              rw [hub] at h
              cases hpb : searchBlock pastFullC p2 with
              | none => rw [hpb] at h; cases h
              | some pb =>
                rw [hpb] at h
                dsimp only at h
                cases hu : processEvents (findEvents ub) upcomingS with
                | error eE => rw [hu] at h; cases h
                | ok ups' =>
                  rw [hu] at h
                  cases hp : processEvents (findEvents pb) pastS with
                  | error eE => rw [hp] at h; cases h
                  | ok pas' =>
                    rw [hp] at h
                    have h5 := Except.ok.inj h
                    have hu2 : ups' = ups := congrArg (fun q => q.2.1) h5
                    have hp2 : pas' = pas := congrArg (fun q => q.2.2) h5
                    rcases List.mem_append.1 he with hup | hpa
                    · rw [← hu2] at hup
                      obtain ⟨g, hg, hn⟩ := processEvents_mem (findEvents ub) upcomingS
                        ups' hu e hup
                      exact ⟨g, hn, findEventsF_g1 ub.length ub g hg⟩
                    · rw [← hp2] at hpa
                      obtain ⟨g, hg, hn⟩ := processEvents_mem (findEvents pb) pastS
                        pas' hp e hpa
                      exact ⟨g, hn, findEventsF_g1 pb.length pb g hg⟩
  obtain ⟨g, hn, t, hg1⟩ := hmain
  rw [hn, hg1, pyStrip_hashes]
  exact ⟨⟨rstripC (' ' :: t), rfl⟩, by
    rw [← pyStrip_hashes, pyStrip_idem]⟩

/-- C8 witness: concrete instantiation of `spec_C8_name_marker` on the
document of the counterexample. -/
theorem spec_C8_witness :
    pyStrip evC8parsed.name = evC8parsed.name ∧ evC8parsed.name.take 2 = ['#', '#'] :=
  ⟨(spec_C8_name_marker docC8 tsC8 fmC8out [evC8parsed] [] (by rfl) evC8parsed
      (by decide)).2,
   by decide⟩

-- Occurrence counting.

lemma countOcc_cons (pat : List Char) (c : Char) (t : List Char) :
    countOcc pat (c :: t) = (if pat.isPrefixOf (c :: t) then 1 else 0) + countOcc pat t := rfl

lemma countOcc_append_ge (pat x y : List Char) : countOcc pat y ≤ countOcc pat (x ++ y) := by
  induction x with
  | nil => simp
  | cons c cs ih =>
    calc countOcc pat y ≤ countOcc pat (cs ++ y) := ih
    _ ≤ countOcc pat ((c :: cs) ++ y) := by
      rw [List.cons_append, countOcc_cons]
      omega

lemma countOcc_self_ge (p : Char) (ps y : List Char) :
    1 + countOcc (p :: ps) y ≤ countOcc (p :: ps) ((p :: ps) ++ y) := by
  rw [show ((p :: ps) ++ y) = p :: (ps ++ y) from rfl, countOcc_cons,
    if_pos (show (p :: ps).isPrefixOf (p :: (ps ++ y)) = true from isPre_append (p :: ps) y)]
  have := countOcc_append_ge (p :: ps) ps y
  omega

lemma containsSub_decomp (s pat : List Char) (h : containsSub s pat = true) :
    ∃ a b, s = a ++ pat ++ b := by
  obtain ⟨i, hi⟩ := Option.isSome_iff_exists.1 h
  obtain ⟨a, b, hab, -⟩ := findSub_decomp pat s i hi
  exact ⟨a, b, hab⟩

lemma containsSub_of_drop (content pat : List Char) (k : Nat) (p : Char) (ps : List Char)
    (hpat : pat = p :: ps) (h : containsSub (content.drop k) pat = true) :
    containsSub content pat = true := by
  obtain ⟨a, b, hab⟩ := containsSub_decomp (content.drop k) pat h
  have : content = (content.take k ++ a) ++ pat ++ b := by
    conv_lhs => rw [← List.take_append_drop k content]
    rw [hab]
    simp [List.append_assoc]
  rw [this]
  exact containsSub_of_decomp (content.take k ++ a) pat b p ps hpat

lemma findSub_none_of_not_contains (s pat : List Char) (h : containsSub s pat = false) :
    findSub pat s = none := by
  cases hf : findSub pat s with
  | none => rfl
  | some i =>
    rw [containsSub, hf] at h
    cases h

lemma searchBlock_none (header s : List Char) (h : containsSub s header = false) :
    searchBlock header s = none := by
  unfold searchBlock
  rw [findSub_none_of_not_contains s header h]

/-- C9 (amended): `parse_markdown` fails with the `MalformedDocument` kind
whenever the document holds fewer than two occurrences of the delimiter
substring `"---\n"` (stand-alone `---` lines are not required), and
whenever the `# Upcoming Events` block header or the `# Past Events` block
header (heading followed by a blank line) is absent from the document. -/
theorem spec_C9_malformed (content : List Char) (ts : Timestamp) :
    (countOcc delimC content < 2 →
      parse_markdown content ts = .error .malformedDocument) ∧
    ((containsSub content upFullC = false ∨ containsSub content pastFullC = false) →
      parse_markdown content ts = .error .malformedDocument) := by
  constructor
  · intro hcount
    cases hf1 : findSub delimC content with
    | none =>
      have hsplit : split3 delimC content = [content] := by
        unfold split3
        rw [hf1]
      unfold parse_markdown
      rw [hsplit]
    | some i =>
      cases hf2 : findSub delimC (content.drop (i + delimC.length)) with
      | none =>
        have hsplit : split3 delimC content =
            [content.take i, content.drop (i + delimC.length)] := by
          unfold split3
          rw [hf1]
          dsimp only
          rw [hf2]
        unfold parse_markdown
        rw [hsplit]
      | some j =>
        exfalso
        obtain ⟨a, b, hab, hal⟩ := findSub_decomp delimC content i hf1
        have hr1 : content.drop (i + delimC.length) = b := by
          rw [hab]
          rw [show i + delimC.length = (a ++ delimC).length by simp [hal]]
          exact List.drop_left (a ++ delimC) b
        rw [hr1] at hf2
        obtain ⟨a2, b2, hb, -⟩ := findSub_decomp delimC b j hf2
        have hb2 : b = a2 ++ (delimC ++ b2) := by
          rw [hb]
          simp [List.append_assoc]
        have hab2 : content = a ++ (delimC ++ (a2 ++ (delimC ++ b2))) := by
          rw [hab, hb2]
          simp [List.append_assoc]
        have h2 : 2 ≤ countOcc delimC content := by
          rw [hab2]
          have s1 : countOcc delimC (delimC ++ (a2 ++ (delimC ++ b2))) ≤
              countOcc delimC (a ++ (delimC ++ (a2 ++ (delimC ++ b2)))) :=
            countOcc_append_ge delimC a (delimC ++ (a2 ++ (delimC ++ b2)))
          have s2 : 1 + countOcc delimC (a2 ++ (delimC ++ b2)) ≤
              countOcc delimC (delimC ++ (a2 ++ (delimC ++ b2))) :=
            countOcc_self_ge '-' ("--\n".data) (a2 ++ (delimC ++ b2))
          have s3 : countOcc delimC (delimC ++ b2) ≤
              countOcc delimC (a2 ++ (delimC ++ b2)) :=
            countOcc_append_ge delimC a2 (delimC ++ b2)
          have s4 : 1 + countOcc delimC b2 ≤ countOcc delimC (delimC ++ b2) :=
            countOcc_self_ge '-' ("--\n".data) b2
          omega
        omega
  · intro hcon
    cases hf1 : findSub delimC content with
    | none =>
      have hsplit : split3 delimC content = [content] := by
        unfold split3
        rw [hf1]
      unfold parse_markdown
      rw [hsplit]
    | some i =>
      cases hf2 : findSub delimC (content.drop (i + delimC.length)) with
      | none =>
        have hsplit : split3 delimC content =
            [content.take i, content.drop (i + delimC.length)] := by
          unfold split3
          rw [hf1]
          dsimp only
          rw [hf2]
        unfold parse_markdown
        rw [hsplit]
      | some j =>
        have hsplit : split3 delimC content =
            [content.take i, (content.drop (i + delimC.length)).take j,
             (content.drop (i + delimC.length)).drop (j + delimC.length)] := by
          unfold split3
          rw [hf1]
          dsimp only
          rw [hf2]
        unfold parse_markdown
        rw [hsplit]
        dsimp only
        have hp2 : (content.drop (i + delimC.length)).drop (j + delimC.length) =
            content.drop ((i + delimC.length) + (j + delimC.length)) :=
          List.drop_drop (j + delimC.length) (i + delimC.length) content
        rcases hcon with hup | hpast
        · have hno : containsSub
              ((content.drop (i + delimC.length)).drop (j + delimC.length)) upFullC
              = false := by
            cases hcc : containsSub
                ((content.drop (i + delimC.length)).drop (j + delimC.length)) upFullC with
            | false => rfl
            | true =>
              rw [hp2] at hcc
              have := containsSub_of_drop content upFullC
                ((i + delimC.length) + (j + delimC.length)) '#'
                (" Upcoming Events\n\n".data) (by rfl) hcc
              rw [this] at hup
              cases hup
          rw [searchBlock_none _ _ hno]
        · cases hsu : searchBlock upFullC
              ((content.drop (i + delimC.length)).drop (j + delimC.length)) with
          | none => rfl
          | some ub =>
            have hno : containsSub
                ((content.drop (i + delimC.length)).drop (j + delimC.length)) pastFullC
                = false := by
              cases hcc : containsSub
                  ((content.drop (i + delimC.length)).drop (j + delimC.length)) pastFullC with
              | false => rfl
              | true =>
                rw [hp2] at hcc
                have := containsSub_of_drop content pastFullC
                  ((i + delimC.length) + (j + delimC.length)) '#'
                  (" Past Events\n\n".data) (by rfl) hcc
                rw [this] at hpast
                cases hpast
            rw [searchBlock_none _ _ hno]

/-- C9 witness: concrete instantiations of both halves of
`spec_C9_malformed`. -/
theorem spec_C9_witness :
    parse_markdown xC9 tsC9 = .error .malformedDocument ∧
    parse_markdown yC9 tsC9 = .error .malformedDocument :=
  ⟨(spec_C9_malformed xC9 tsC9).1 (by decide),
   (spec_C9_malformed yC9 tsC9).2 (Or.inl (by decide))⟩

-- Scanning over hash-free stretches.

lemma isPre_head_ne (p c : Char) (ps t : List Char) (h : p ≠ c) :
    (p :: ps).isPrefixOf (c :: t) = false := by
  have hb : (p == c) = false := by simpa using h
  simp [List.isPrefixOf, hb]

lemma findSub_cons_of_neg (pat : List Char) (c : Char) (s : List Char)
    (h : pat.isPrefixOf (c :: s) = false) :
    findSub pat (c :: s) = (findSub pat s).map (· + 1) := by
  unfold findSub
  rw [if_neg (by simp [h])]
  congr 1
  cases s with
  | nil => rfl
  | cons d ds => rfl

lemma countOcc_cons_of_neg (pat : List Char) (c : Char) (s : List Char)
    (h : pat.isPrefixOf (c :: s) = false) :
    countOcc pat (c :: s) = countOcc pat s := by
  rw [countOcc_cons, if_neg (by simp [h])]
  omega

lemma findSub_self_pre (pat : List Char) (p : Char) (ps : List Char)
    (hpat : pat = p :: ps) (y : List Char) : findSub pat (pat ++ y) = some 0 := by
  subst hpat
  have : findSub (p :: ps) ((p :: ps) ++ y) =
      if (p :: ps).isPrefixOf (p :: (ps ++ y)) then some 0
      else (findSub (p :: ps) (ps ++ y)).map (· + 1) := rfl
  rw [this, if_pos (show (p :: ps).isPrefixOf (p :: (ps ++ y)) = true from
    isPre_append (p :: ps) y)]

lemma findSub_hashfree_append (pat : List Char) (ps : List Char)
    (hpat : pat = '#' :: ps) : ∀ (a s : List Char), ('#' : Char) ∉ a →
    findSub pat (a ++ s) = (findSub pat s).map (· + a.length) := by
  intro a
  induction a with
  | nil =>
    intro s _
    cases hfs : findSub pat s <;> simp [hfs]
  | cons c a2 ih =>
    intro s ha
    have hc : ('#' : Char) ≠ c := fun hh => ha (hh ▸ List.mem_cons_self c a2)
    have hpre : pat.isPrefixOf (c :: (a2 ++ s)) = false := by
      rw [hpat]
      exact isPre_head_ne '#' c ps (a2 ++ s) hc
    rw [List.cons_append, findSub_cons_of_neg pat c (a2 ++ s) hpre,
      ih s (fun hm => ha (List.mem_cons_of_mem c hm))]
    cases hfs : findSub pat s <;> simp [hfs] <;> omega

lemma findSub_hashfree_none (pat s : List Char) (hp : ('#' : Char) ∈ pat)
    (hs : ('#' : Char) ∉ s) : findSub pat s = none := by
  induction s with
  | nil =>
    cases pat with
    | nil => simp at hp
    | cons q qs => rfl
  | cons c cs ih =>
    have hpre : pat.isPrefixOf (c :: cs) = false := by
      cases hb : pat.isPrefixOf (c :: cs) with
      | false => rfl
      | true =>
        obtain ⟨t, ht⟩ := eq_append_of_isPre pat (c :: cs) hb
        have : ('#' : Char) ∈ c :: cs := by
          rw [ht]
          exact List.mem_append_left t hp
        exact absurd this hs
    rw [findSub_cons_of_neg pat c cs hpre,
      ih (fun hm => hs (List.mem_cons_of_mem c hm))]
    rfl

lemma countOcc_hashfree_append (pat : List Char) (ps : List Char)
    (hpat : pat = '#' :: ps) : ∀ (a s : List Char), ('#' : Char) ∉ a →
    countOcc pat (a ++ s) = countOcc pat s := by
  intro a
  induction a with
  | nil => intro s _; rfl
  | cons c a2 ih =>
    intro s ha
    have hc : ('#' : Char) ≠ c := fun hh => ha (hh ▸ List.mem_cons_self c a2)
    have hpre : pat.isPrefixOf (c :: (a2 ++ s)) = false := by
      rw [hpat]
      exact isPre_head_ne '#' c ps (a2 ++ s) hc
    rw [List.cons_append, countOcc_cons_of_neg pat c (a2 ++ s) hpre,
      ih s (fun hm => ha (List.mem_cons_of_mem c hm))]

lemma countOcc_hashfree_zero (pat s : List Char) (hp : ('#' : Char) ∈ pat)
    (hs : ('#' : Char) ∉ s) : countOcc pat s = 0 := by
  induction s with
  | nil => rfl
  | cons c cs ih =>
    have hpre : pat.isPrefixOf (c :: cs) = false := by
      cases hb : pat.isPrefixOf (c :: cs) with
      | false => rfl
      | true =>
        obtain ⟨t, ht⟩ := eq_append_of_isPre pat (c :: cs) hb
        have : ('#' : Char) ∈ c :: cs := by
          rw [ht]
          exact List.mem_append_left t hp
        exact absurd this hs
    rw [countOcc_cons_of_neg pat c cs hpre]
    exact ih (fun hm => hs (List.mem_cons_of_mem c hm))

lemma countOcc_head_self (pat : List Char) (p : Char) (ps : List Char)
    (hpat : pat = p :: ps) (y : List Char) :
    countOcc pat (pat ++ y) = 1 + countOcc pat (ps ++ y) := by
  subst hpat
  rw [show ((p :: ps) ++ y) = p :: (ps ++ y) from rfl, countOcc_cons,
    if_pos (show (p :: ps).isPrefixOf (p :: (ps ++ y)) = true from isPre_append (p :: ps) y)]

lemma isPre_take_ne (pat u X : List Char) (n : Nat)
    (hnu : n ≤ u.length) (hnp : n ≤ pat.length) (hne : pat.take n ≠ u.take n) :
    pat.isPrefixOf (u ++ X) = false := by
  cases h : pat.isPrefixOf (u ++ X) with
  | false => rfl
  | true =>
    obtain ⟨t, ht⟩ := eq_append_of_isPre pat (u ++ X) h
    have h2 := congrArg (List.take n) ht
    rw [List.take_append_of_le_length hnu, List.take_append_of_le_length hnp] at h2
    exact absurd h2.symm hne

-- The rendered text of hash-free records is hash-free.

lemma getD_cases (l : List (List Char)) : ∀ (n : Nat) (d : List Char),
    l.getD n d ∈ l ∨ l.getD n d = d := by
  induction l with
  | nil => intro n d; right; cases n <;> rfl
  | cons x xs ih =>
    intro n d
    cases n with
    | zero => left; exact List.mem_cons_self x xs
    | succ m =>
      rcases ih m d with h | h
      · left; exact List.mem_cons_of_mem x h
      · right; exact h

lemma hashFree_monthAbbrev (m : Nat) : ('#' : Char) ∉ monthAbbrev m := by
  unfold monthAbbrev
  rcases getD_cases monthTable (m - 1) mBad with h | h
  · intro hc
    have : ∀ x ∈ monthTable, ('#' : Char) ∉ x := by decide
    exact this _ h hc
  · rw [h]
    decide

lemma digitChar_mod_ne_hash (n : Nat) : Nat.digitChar (n % 10) ≠ '#' := by
  intro he
  have := isDigitC_digitChar_mod n
  rw [he] at this
  exact absurd this (by decide)

lemma hashFree_pad2 (n : Nat) : ('#' : Char) ∉ pad2 n := by
  intro hc
  rcases List.mem_cons.1 hc with h | h
  · exact digitChar_mod_ne_hash (n / 10) h.symm
  · rcases List.mem_cons.1 h with h2 | h2
    · exact digitChar_mod_ne_hash n h2.symm
    · simp at h2

lemma hashFree_pad4 (n : Nat) : ('#' : Char) ∉ pad4 n := by
  intro hc
  rcases List.mem_cons.1 hc with h | h
  · exact digitChar_mod_ne_hash (n / 1000) h.symm
  · rcases List.mem_cons.1 h with h2 | h2
    · exact digitChar_mod_ne_hash (n / 100) h2.symm
    · rcases List.mem_cons.1 h2 with h3 | h3
      · exact digitChar_mod_ne_hash (n / 10) h3.symm
      · rcases List.mem_cons.1 h3 with h4 | h4
        · exact digitChar_mod_ne_hash n h4.symm
        · simp at h4

lemma hashFree_formatDate (dt : Date) : ('#' : Char) ∉ formatDate dt := by
  unfold formatDate
  intro hc
  rcases List.mem_append.1 hc with h | h
  · rcases List.mem_append.1 h with h1 | h1
    · exact hashFree_monthAbbrev dt.m h1
    · rcases List.mem_cons.1 h1 with h2 | h2
      · exact absurd h2 (by decide)
      · exact hashFree_pad2 dt.d h2
  · rcases List.mem_cons.1 h with h2 | h2
    · exact absurd h2 (by decide)
    · rcases List.mem_cons.1 h2 with h3 | h3
      · exact absurd h3 (by decide)
      · exact hashFree_pad4 dt.y h3

lemma hashFree_renderEvent (e : Ev) (h : hashFreeEv e) : ('#' : Char) ∉ renderEvent e := by
  obtain ⟨h1, h2, h3, h4⟩ := h
  unfold renderEvent
  intro hc
  simp only [List.mem_append] at hc
  rcases hc with ((((((((hc | hc) | hc) | hc) | hc) | hc) | hc) | hc) | hc)
  · exact h2 hc
  · exact absurd hc (by decide)
  · exact h1 hc
  · exact absurd hc (by decide)
  · exact hashFree_formatDate e.date hc
  · exact absurd hc (by decide)
  · exact h3 hc
  · exact absurd hc (by decide)
  · exact h4 hc

lemma hashFree_joinNlNl : ∀ (l : List (List Char)), (∀ x ∈ l, ('#' : Char) ∉ x) →
    ('#' : Char) ∉ joinNlNl l := by
  intro l
  induction l with
  | nil => intro _ hc; cases hc
  | cons x t ih =>
    intro hall hc
    cases t with
    | nil => exact hall x (List.mem_cons_self x []) hc
    | cons y t2 =>
      rw [show joinNlNl (x :: y :: t2) = x ++ nl2 ++ joinNlNl (y :: t2) from rfl] at hc
      rcases List.mem_append.1 hc with hm | hm
      · rcases List.mem_append.1 hm with hm2 | hm2
        · exact hall x (List.mem_cons_self x (y :: t2)) hm2
        · exact absurd hm2 (by decide)
      · exact ih (fun z hz => hall z (List.mem_cons_of_mem x hz)) hm

-- Every merged record's rendered fields come from an input record.

lemma mem_dictInsert_src (d : List Ev) (g x : Ev) (h : x ∈ dictInsert d g) :
    x = g ∨ x ∈ d := by
  unfold dictInsert at h
  by_cases hb : (d.any fun z => z.id == g.id) = true
  · rw [if_pos hb] at h
    obtain ⟨z, hz, hzx⟩ := List.mem_map.1 h
    by_cases hid : (z.id == g.id) = true
    · left
      rw [if_pos hid] at hzx
      exact hzx.symm
    · right
      rw [if_neg hid] at hzx
      exact hzx ▸ hz
  · rw [if_neg hb] at h
    rcases List.mem_append.1 h with h2 | h2
    · right; exact h2
    · left; exact List.mem_singleton.1 h2

lemma mem_foldl_dictInsert_src (l : List Ev) : ∀ (d : List Ev) (x : Ev),
    x ∈ l.foldl dictInsert d → x ∈ d ∨ x ∈ l := by
  induction l with
  | nil => intro d x h; left; exact h
  | cons g t ih =>
    intro d x h
    rcases ih (dictInsert d g) x h with h2 | h2
    · rcases mem_dictInsert_src d g x h2 with h3 | h3
      · right; rw [h3]; exact List.mem_cons_self g t
      · left; exact h3
    · right; exact List.mem_cons_of_mem g h2

lemma hashFreeEv_mergedEvents (newEvents exUp exPast : List Ev) (today : Date)
    (hev : ∀ e ∈ newEvents ++ (exUp ++ exPast), hashFreeEv e) :
    ∀ x ∈ mergedEvents newEvents exUp exPast today, hashFreeEv x := by
  intro x hx
  obtain ⟨z, hz, rfl⟩ := List.mem_map.1 hx
  have hz2 : z ∈ (exUp ++ exPast).foldl
      (fun d e => dictInsert d (withSect e (computeSection today e.date))) [] ∨
      z ∈ newEvents := mem_foldl_dictInsert_src newEvents _ z hz
  have hsrc : hashFreeEv z := by
    rcases hz2 with h2 | h2
    · rw [← List.foldl_map (fun e => withSect e (computeSection today e.date)) dictInsert]
        at h2
      rcases mem_foldl_dictInsert_src _ [] z h2 with h3 | h3
      · cases h3
      · obtain ⟨w, hw, rfl⟩ := List.mem_map.1 h3
        have := hev w (List.mem_append_right newEvents hw)
        simpa [hashFreeEv, withSect] using this
    · exact hev z (List.mem_append_left _ h2)
  simpa [hashFreeEv, withSect] using hsrc

/-- In a hash-free stretch followed by a blank line and a heading, the first
`"\n\n#"` occurrence is exactly at the junction. -/
lemma findSub_nlnlHash_mid : ∀ (u : List Char), ('#' : Char) ∉ u → ∀ W : List Char,
    findSub nlnlHash (u ++ ('\n' :: '\n' :: '#' :: W)) = some u.length := by
  intro u
  induction u with
  | nil =>
    intro _ W
    exact findSub_self_pre nlnlHash '\n' ('\n' :: '#' :: []) rfl W
  | cons c u2 ih =>
    intro hu W
    have hpre : nlnlHash.isPrefixOf (c :: (u2 ++ ('\n' :: '\n' :: '#' :: W))) = false := by
      cases hb : nlnlHash.isPrefixOf (c :: (u2 ++ ('\n' :: '\n' :: '#' :: W))) with
      | false => rfl
      | true =>
        exfalso
        obtain ⟨t, ht⟩ := eq_append_of_isPre nlnlHash _ hb
        rw [show nlnlHash ++ t = '\n' :: '\n' :: '#' :: t from rfl] at ht
        cases u2 with
        | nil => simp at ht
        | cons d1 u3 =>
          cases u3 with
          | nil => simp at ht
          | cons d2 u4 =>
            simp only [List.cons_append, List.cons.injEq] at ht
            exact hu (by
              rw [ht.2.2.1.symm]
              exact List.mem_cons_of_mem c (List.mem_cons_of_mem d1
                (List.mem_cons_self d2 u4)))
    rw [List.cons_append, findSub_cons_of_neg _ _ _ hpre,
      ih (fun hm => hu (List.mem_cons_of_mem c hm)) W]
    simp

lemma matchEventAt_none_of_ne (c : Char) (cs : List Char) (hc : c ≠ '#') :
    matchEventAt (c :: cs) = none := by
  have hfalse : headMark.isPrefixOf (c :: cs) = false :=
    isPre_head_ne '#' c ('#' :: ' ' :: []) cs (Ne.symm hc)
  unfold matchEventAt dropPre
  rw [if_neg (by simp [hfalse])]

lemma findEventsF_hashfree : ∀ (fuel : Nat) (s : List Char), ('#' : Char) ∉ s →
    findEventsF fuel s = [] := by
  intro fuel
  induction fuel with
  | zero => intro s _; rfl
  | succ n ih =>
    intro s hs
    cases s with
    | nil => rfl
    | cons c cs =>
      unfold findEventsF
      dsimp only
      rw [matchEventAt_none_of_ne c cs (fun hcc => hs (hcc ▸ List.mem_cons_self c cs))]
      exact ih cs (fun hm => hs (List.mem_cons_of_mem c hm))

lemma findEvents_hashfree (s : List Char) (hs : ('#' : Char) ∉ s) : findEvents s = [] :=
  findEventsF_hashfree s.length s hs

lemma containsSub_cons_false (pat : List Char) (c : Char) (l : List Char)
    (h : containsSub (c :: l) pat = false) : containsSub l pat = false := by
  cases hc : containsSub l pat with
  | false => rfl
  | true =>
    exfalso
    unfold containsSub findSub at h
    by_cases hp : pat.isPrefixOf (c :: l) = true
    · rw [if_pos hp] at h
      cases h
    · rw [if_neg hp] at h
      unfold containsSub at hc
      obtain ⟨i, hi⟩ := Option.isSome_iff_exists.1 hc
      rw [hi] at h
      cases h

/-- With no `---` inside the front matter, the first `"---\n"` of
`fm ++ "---\n" ++ X` sits exactly at the end of the front matter. -/
lemma findSub_delim_mid : ∀ (fm X : List Char), containsSub fm dash3 = false →
    findSub delimC (fm ++ (delimC ++ X)) = some fm.length := by
  intro fm
  induction fm with
  | nil =>
    intro X _
    exact findSub_self_pre delimC '-' ('-' :: '-' :: '\n' :: []) rfl X
  | cons c fm2 ih =>
    intro X hfm
    have hpre : delimC.isPrefixOf (c :: (fm2 ++ (delimC ++ X))) = false := by
      cases hb : delimC.isPrefixOf (c :: (fm2 ++ (delimC ++ X))) with
      | false => rfl
      | true =>
        exfalso
        obtain ⟨t, ht⟩ := eq_append_of_isPre delimC _ hb
        rw [show delimC ++ t = '-' :: '-' :: '-' :: '\n' :: t from rfl] at ht
        cases fm2 with
        | nil =>
          rw [show ([] : List Char) ++ (delimC ++ X) =
            '-' :: '-' :: '-' :: '\n' :: X from rfl] at ht
          simp at ht
        | cons d1 fm3 =>
          cases fm3 with
          | nil =>
            rw [show [d1] ++ (delimC ++ X) =
              d1 :: '-' :: '-' :: '-' :: '\n' :: X from rfl] at ht
            simp at ht
          | cons d2 fm4 =>
            simp only [List.cons_append, List.cons.injEq] at ht
            have hccon : containsSub (c :: d1 :: d2 :: fm4) dash3 = true := by
              have hshape : dash3.isPrefixOf (c :: d1 :: d2 :: fm4) = true := by
                rw [ht.1, ht.2.1, ht.2.2.1]
                rw [show dash3 = '-' :: '-' :: '-' :: [] from rfl]
                simp [List.isPrefixOf]
              unfold containsSub findSub
              rw [if_pos hshape]
              rfl
            rw [hccon] at hfm
            cases hfm
    rw [List.cons_append, findSub_cons_of_neg _ _ _ hpre,
      ih X (containsSub_cons_false dash3 c fm2 hfm)]
    simp

lemma c10_count_up (fm U P : List Char) (hfm : ('#' : Char) ∉ fm)
    (hU : ('#' : Char) ∉ U) (hP : ('#' : Char) ∉ P) :
    countOcc upHeadC (delimC ++ (fm ++ (delimC ++ (nlC ++ (upFullC ++
      (U ++ (nl2 ++ (pastFullC ++ (P ++ nlC))))))))) = 1 := by
  rw [countOcc_hashfree_append upHeadC upHeadTailC rfl delimC _ (by decide)]
  rw [countOcc_hashfree_append upHeadC upHeadTailC rfl fm _ hfm]
  rw [countOcc_hashfree_append upHeadC upHeadTailC rfl delimC _ (by decide)]
  rw [countOcc_hashfree_append upHeadC upHeadTailC rfl nlC _ (by decide)]
  rw [show upFullC ++ (U ++ (nl2 ++ (pastFullC ++ (P ++ nlC)))) =
      upHeadC ++ (nl2 ++ (U ++ (nl2 ++ (pastFullC ++ (P ++ nlC))))) from by
    simp [upFullC, List.append_assoc]]
  rw [countOcc_head_self upHeadC '#' upHeadTailC rfl _]
  rw [countOcc_hashfree_append upHeadC upHeadTailC rfl upHeadTailC _ (by decide)]
  rw [countOcc_hashfree_append upHeadC upHeadTailC rfl nl2 _ (by decide)]
  rw [countOcc_hashfree_append upHeadC upHeadTailC rfl U _ hU]
  rw [countOcc_hashfree_append upHeadC upHeadTailC rfl nl2 _ (by decide)]
  have hnp1 : upHeadC.isPrefixOf ('#' :: (pastFullTailC ++ (P ++ nlC))) = false :=
    isPre_take_ne upHeadC pastFullC (P ++ nlC) 15 (by decide) (by decide) (by decide)
  rw [show pastFullC ++ (P ++ nlC) = '#' :: (pastFullTailC ++ (P ++ nlC)) from rfl]
  rw [countOcc_cons_of_neg upHeadC '#' (pastFullTailC ++ (P ++ nlC)) hnp1]
  rw [countOcc_hashfree_append upHeadC upHeadTailC rfl pastFullTailC _ (by decide)]
  rw [countOcc_hashfree_append upHeadC upHeadTailC rfl P _ hP]
  rw [countOcc_hashfree_zero upHeadC nlC (by decide) (by decide)]

lemma c10_count_past (fm U P : List Char) (hfm : ('#' : Char) ∉ fm)
    (hU : ('#' : Char) ∉ U) (hP : ('#' : Char) ∉ P) :
    countOcc pastHeadC (delimC ++ (fm ++ (delimC ++ (nlC ++ (upFullC ++
      (U ++ (nl2 ++ (pastFullC ++ (P ++ nlC))))))))) = 1 := by
  rw [countOcc_hashfree_append pastHeadC pastHeadTailC rfl delimC _ (by decide)]
  rw [countOcc_hashfree_append pastHeadC pastHeadTailC rfl fm _ hfm]
  rw [countOcc_hashfree_append pastHeadC pastHeadTailC rfl delimC _ (by decide)]
  rw [countOcc_hashfree_append pastHeadC pastHeadTailC rfl nlC _ (by decide)]
  have hnp2 : pastHeadC.isPrefixOf ('#' :: (upFullTailC ++
      (U ++ (nl2 ++ (pastFullC ++ (P ++ nlC)))))) = false :=
    isPre_take_ne pastHeadC upFullC (U ++ (nl2 ++ (pastFullC ++ (P ++ nlC)))) 13
      (by decide) (by decide) (by decide)
  rw [show upFullC ++ (U ++ (nl2 ++ (pastFullC ++ (P ++ nlC)))) =
      '#' :: (upFullTailC ++ (U ++ (nl2 ++ (pastFullC ++ (P ++ nlC))))) from rfl]
  rw [countOcc_cons_of_neg pastHeadC '#' _ hnp2]
  rw [countOcc_hashfree_append pastHeadC pastHeadTailC rfl upFullTailC _ (by decide)]
  rw [countOcc_hashfree_append pastHeadC pastHeadTailC rfl U _ hU]
  rw [countOcc_hashfree_append pastHeadC pastHeadTailC rfl nl2 _ (by decide)]
  rw [show pastFullC ++ (P ++ nlC) = pastHeadC ++ (nl2 ++ (P ++ nlC)) from by
    simp [pastFullC, List.append_assoc]]
  rw [countOcc_head_self pastHeadC '#' pastHeadTailC rfl _]
  rw [countOcc_hashfree_append pastHeadC pastHeadTailC rfl pastHeadTailC _ (by decide)]
  rw [countOcc_hashfree_append pastHeadC pastHeadTailC rfl nl2 _ (by decide)]
  rw [countOcc_hashfree_append pastHeadC pastHeadTailC rfl P _ hP]
  rw [countOcc_hashfree_zero pastHeadC nlC (by decide) (by decide)]

lemma c10_pos (fm U P : List Char) (hfm : ('#' : Char) ∉ fm)
    (hU : ('#' : Char) ∉ U) (hP : ('#' : Char) ∉ P) :
    ∃ a b : Nat,
      findSub upHeadC (delimC ++ (fm ++ (delimC ++ (nlC ++ (upFullC ++
        (U ++ (nl2 ++ (pastFullC ++ (P ++ nlC))))))))) = some a ∧
      findSub pastHeadC (delimC ++ (fm ++ (delimC ++ (nlC ++ (upFullC ++
        (U ++ (nl2 ++ (pastFullC ++ (P ++ nlC))))))))) = some b ∧
      a < b := by
  have h1 : findSub upHeadC (delimC ++ (fm ++ (delimC ++ (nlC ++ (upFullC ++
      (U ++ (nl2 ++ (pastFullC ++ (P ++ nlC))))))))) =
      some (0 + nlC.length + delimC.length + fm.length + delimC.length) := by
    rw [findSub_hashfree_append upHeadC upHeadTailC rfl delimC _ (by decide)]
    rw [findSub_hashfree_append upHeadC upHeadTailC rfl fm _ hfm]
    rw [findSub_hashfree_append upHeadC upHeadTailC rfl delimC _ (by decide)]
    rw [findSub_hashfree_append upHeadC upHeadTailC rfl nlC _ (by decide)]
    rw [show upFullC ++ (U ++ (nl2 ++ (pastFullC ++ (P ++ nlC)))) =
        upHeadC ++ (nl2 ++ (U ++ (nl2 ++ (pastFullC ++ (P ++ nlC))))) from by
      simp [upFullC, List.append_assoc]]
    rw [findSub_self_pre upHeadC '#' upHeadTailC rfl _]
    simp only [Option.map_some']
  have hnp2 : pastHeadC.isPrefixOf ('#' :: (upFullTailC ++
      (U ++ (nl2 ++ (pastFullC ++ (P ++ nlC)))))) = false :=
    isPre_take_ne pastHeadC upFullC (U ++ (nl2 ++ (pastFullC ++ (P ++ nlC)))) 13
      (by decide) (by decide) (by decide)
  have h2 : findSub pastHeadC (delimC ++ (fm ++ (delimC ++ (nlC ++ (upFullC ++
      (U ++ (nl2 ++ (pastFullC ++ (P ++ nlC))))))))) =
      some (0 + nl2.length + U.length + upFullTailC.length + 1 + nlC.length +
        delimC.length + fm.length + delimC.length) := by
    rw [findSub_hashfree_append pastHeadC pastHeadTailC rfl delimC _ (by decide)]
    rw [findSub_hashfree_append pastHeadC pastHeadTailC rfl fm _ hfm]
    rw [findSub_hashfree_append pastHeadC pastHeadTailC rfl delimC _ (by decide)]
    rw [findSub_hashfree_append pastHeadC pastHeadTailC rfl nlC _ (by decide)]
    rw [show upFullC ++ (U ++ (nl2 ++ (pastFullC ++ (P ++ nlC)))) =
        '#' :: (upFullTailC ++ (U ++ (nl2 ++ (pastFullC ++ (P ++ nlC))))) from rfl]
    rw [findSub_cons_of_neg pastHeadC '#' _ hnp2]
    rw [findSub_hashfree_append pastHeadC pastHeadTailC rfl upFullTailC _ (by decide)]
    rw [findSub_hashfree_append pastHeadC pastHeadTailC rfl U _ hU]
    rw [findSub_hashfree_append pastHeadC pastHeadTailC rfl nl2 _ (by decide)]
    rw [show pastFullC ++ (P ++ nlC) = pastHeadC ++ (nl2 ++ (P ++ nlC)) from by
      simp [pastFullC, List.append_assoc]]
    rw [findSub_self_pre pastHeadC '#' pastHeadTailC rfl _]
    simp only [Option.map_some']
  exact ⟨_, _, h1, h2, by omega⟩

lemma c10_split (fm B : List Char) (hfm2 : containsSub fm dash3 = false) :
    split3 delimC (delimC ++ (fm ++ (delimC ++ B))) = [[], fm, B] := by
  have hf1 : findSub delimC (delimC ++ (fm ++ (delimC ++ B))) = some 0 :=
    findSub_self_pre delimC '-' delimTailC rfl _
  have hr1 : (delimC ++ (fm ++ (delimC ++ B))).drop (0 + delimC.length) =
      fm ++ (delimC ++ B) := by
    rw [Nat.zero_add]
    exact List.drop_left delimC _
  have hf2 : findSub delimC (fm ++ (delimC ++ B)) = some fm.length :=
    findSub_delim_mid fm B hfm2
  have htail : (fm ++ (delimC ++ B)).drop (fm.length + delimC.length) = B := by
    rw [show fm ++ (delimC ++ B) = (fm ++ delimC) ++ B from
      (List.append_assoc _ _ _).symm]
    rw [show fm.length + delimC.length = (fm ++ delimC).length from
      (List.length_append _ _).symm]
    exact List.drop_left _ _
  unfold split3
  rw [hf1]
  dsimp only
  rw [hr1, hf2]
  dsimp only
  rw [List.take_zero, List.take_left, htail]

lemma c10_block_up (U P : List Char) (hU : ('#' : Char) ∉ U) :
    searchBlock upFullC (nlC ++ (upFullC ++ (U ++ (nl2 ++ (pastFullC ++
      (P ++ nlC)))))) = some U := by
  have hfind : findSub upFullC (nlC ++ (upFullC ++ (U ++ (nl2 ++ (pastFullC ++
      (P ++ nlC)))))) = some (0 + nlC.length) := by
    rw [findSub_hashfree_append upFullC upFullTailC rfl nlC _ (by decide)]
    rw [findSub_self_pre upFullC '#' upFullTailC rfl _]
    simp only [Option.map_some']
  have ht : (nlC ++ (upFullC ++ (U ++ (nl2 ++ (pastFullC ++
      (P ++ nlC)))))).drop (0 + nlC.length + upFullC.length) =
      U ++ (nl2 ++ (pastFullC ++ (P ++ nlC))) := by
    rw [show nlC ++ (upFullC ++ (U ++ (nl2 ++ (pastFullC ++ (P ++ nlC))))) =
        (nlC ++ upFullC) ++ (U ++ (nl2 ++ (pastFullC ++ (P ++ nlC)))) from by
      simp [List.append_assoc]]
    rw [show 0 + nlC.length + upFullC.length = (nlC ++ upFullC).length from by
      simp [List.length_append]]
    exact List.drop_left _ _
  have hshape : U ++ (nl2 ++ (pastFullC ++ (P ++ nlC))) =
      U ++ ('\n' :: '\n' :: '#' :: (pastFullTailC ++ (P ++ nlC))) := rfl
  unfold searchBlock
  rw [hfind]
  dsimp only
  rw [ht, hshape, findSub_nlnlHash_mid U hU _]
  dsimp only
  rw [List.take_left]

lemma c10_block_past (U P : List Char) (hU : ('#' : Char) ∉ U)
    (hP : ('#' : Char) ∉ P) :
    searchBlock pastFullC (nlC ++ (upFullC ++ (U ++ (nl2 ++ (pastFullC ++
      (P ++ nlC)))))) = some P := by
  have l1 : nlC.length = 1 := rfl
  have l2 : nl2.length = 2 := rfl
  have l3 : upFullTailC.length = 18 := rfl
  have l4 : pastFullC.length = 15 := rfl
  have l5 : upFullC.length = 19 := rfl
  have hnp3 : pastFullC.isPrefixOf ('#' :: (upFullTailC ++ (U ++ (nl2 ++
      (pastFullC ++ (P ++ nlC)))))) = false :=
    isPre_take_ne pastFullC upFullC (U ++ (nl2 ++ (pastFullC ++ (P ++ nlC)))) 15
      (by decide) (by decide) (by decide)
  have hfind : findSub pastFullC (nlC ++ (upFullC ++ (U ++ (nl2 ++ (pastFullC ++
      (P ++ nlC)))))) = some (0 + nl2.length + U.length + upFullTailC.length +
      1 + nlC.length) := by
    rw [findSub_hashfree_append pastFullC pastFullTailC rfl nlC _ (by decide)]
    rw [show upFullC ++ (U ++ (nl2 ++ (pastFullC ++ (P ++ nlC)))) =
        '#' :: (upFullTailC ++ (U ++ (nl2 ++ (pastFullC ++ (P ++ nlC))))) from rfl]
    rw [findSub_cons_of_neg pastFullC '#' _ hnp3]
    rw [findSub_hashfree_append pastFullC pastFullTailC rfl upFullTailC _ (by decide)]
    rw [findSub_hashfree_append pastFullC pastFullTailC rfl U _ hU]
    rw [findSub_hashfree_append pastFullC pastFullTailC rfl nl2 _ (by decide)]
    rw [findSub_self_pre pastFullC '#' pastFullTailC rfl _]
    simp only [Option.map_some']
  have ht2 : (nlC ++ (upFullC ++ (U ++ (nl2 ++ (pastFullC ++
      (P ++ nlC)))))).drop (0 + nl2.length + U.length + upFullTailC.length +
      1 + nlC.length + pastFullC.length) = P ++ nlC := by
    rw [show nlC ++ (upFullC ++ (U ++ (nl2 ++ (pastFullC ++ (P ++ nlC))))) =
        (nlC ++ (upFullC ++ (U ++ (nl2 ++ pastFullC)))) ++ (P ++ nlC) from by
      simp [List.append_assoc]]
    rw [show 0 + nl2.length + U.length + upFullTailC.length + 1 + nlC.length +
        pastFullC.length = (nlC ++ (upFullC ++ (U ++ (nl2 ++ pastFullC)))).length from by
      simp only [List.length_append, l1, l2, l3, l4, l5]
      omega]
    exact List.drop_left _ _
  have hnone : findSub nlnlHash (P ++ nlC) = none := by
    refine findSub_hashfree_none nlnlHash (P ++ nlC) (by decide) ?_
    intro hmem
    rcases List.mem_append.1 hmem with h | h
    · exact hP h
    · exact absurd h (by decide)
  have hlast : (P ++ nlC).getLast? = some '\n' := by
    rw [show P ++ nlC = P ++ ['\n'] from rfl]
    exact List.getLast?_concat _
  have hlen : (P ++ nlC).length - 1 = P.length := by
    simp only [List.length_append, l1]
    omega
  unfold searchBlock
  rw [hfind]
  dsimp only
  rw [ht2, hnone]
  dsimp only
  rw [hlast, if_pos rfl, hlen, List.take_left]

lemma c10_parse (fm U P : List Char) (ts : Timestamp)
    (hfm2 : containsSub fm dash3 = false)
    (hU : ('#' : Char) ∉ U) (hP : ('#' : Char) ∉ P) :
    parse_markdown (delimC ++ (fm ++ (delimC ++ (nlC ++ (upFullC ++
      (U ++ (nl2 ++ (pastFullC ++ (P ++ nlC))))))))) ts =
    .ok (pubDateSub fm (utcFormat ts), [], []) := by
  unfold parse_markdown
  rw [c10_split fm (nlC ++ (upFullC ++ (U ++ (nl2 ++ (pastFullC ++
    (P ++ nlC)))))) hfm2]
  dsimp only
  rw [c10_block_up U P hU, c10_block_past U P hU hP]
  dsimp only
  rw [findEvents_hashfree U hU, findEvents_hashfree P hP]
  rfl

/-- C10: for frontmatter free of the characters that can collide with the
document structure (no `#`, no `---`) and records whose text fields contain
no `#`, the generated document has exactly one `# Upcoming Events` heading
and one `# Past Events` heading, in that order, and `parse_markdown` accepts
it without error. -/
theorem spec_C10_render_parse (fm : List Char) (newEvents exUp exPast : List Ev)
    (today : Date) (ts : Timestamp)
    (hfm1 : ('#' : Char) ∉ fm) (hfm2 : containsSub fm dash3 = false)
    (hev : ∀ e ∈ newEvents ++ (exUp ++ exPast), hashFreeEv e) :
    countOcc upHeadC (merge_and_generate_markdown fm newEvents exUp exPast today) = 1 ∧
    countOcc pastHeadC (merge_and_generate_markdown fm newEvents exUp exPast today) = 1 ∧
    (∃ a b : Nat,
      findSub upHeadC (merge_and_generate_markdown fm newEvents exUp exPast today) = some a ∧
      findSub pastHeadC (merge_and_generate_markdown fm newEvents exUp exPast today) = some b ∧
      a < b) ∧
    (∃ fm2 ups pas, parse_markdown (merge_and_generate_markdown fm newEvents exUp exPast today) ts
      = .ok (fm2, ups, pas)) := by
  have hmerged := hashFreeEv_mergedEvents newEvents exUp exPast today hev
  have hUf : ('#' : Char) ∉ joinNlNl (((mergedEvents newEvents exUp exPast
      today).filter (fun e => e.sect == upcomingS)).map renderEvent) := by
    apply hashFree_joinNlNl
    intro x hx
    obtain ⟨e, he, rfl⟩ := List.mem_map.1 hx
    exact hashFree_renderEvent e (hmerged e (List.mem_of_mem_filter he))
  have hPf : ('#' : Char) ∉ joinNlNl (((mergedEvents newEvents exUp exPast
      today).filter (fun e => e.sect == pastS)).map renderEvent) := by
    apply hashFree_joinNlNl
    intro x hx
    obtain ⟨e, he, rfl⟩ := List.mem_map.1 hx
    exact hashFree_renderEvent e (hmerged e (List.mem_of_mem_filter he))
  have hdoc : merge_and_generate_markdown fm newEvents exUp exPast today =
      delimC ++ (fm ++ (delimC ++ (nlC ++ (upFullC ++
        (joinNlNl (((mergedEvents newEvents exUp exPast
          today).filter (fun e => e.sect == upcomingS)).map renderEvent) ++
        (nl2 ++ (pastFullC ++
        (joinNlNl (((mergedEvents newEvents exUp exPast
          today).filter (fun e => e.sect == pastS)).map renderEvent) ++
        nlC)))))))) := by
    unfold merge_and_generate_markdown
    dsimp only
    simp [List.append_assoc]
  rw [hdoc]
  exact ⟨c10_count_up _ _ _ hfm1 hUf hPf, c10_count_past _ _ _ hfm1 hUf hPf,
    c10_pos _ _ _ hfm1 hUf hPf,
    ⟨_, _, _, c10_parse _ _ _ ts hfm2 hUf hPf⟩⟩

theorem spec_C10_witness :
    countOcc upHeadC (merge_and_generate_markdown fmC10 [evC10] [] [] todayC10b) = 1 ∧
    countOcc pastHeadC (merge_and_generate_markdown fmC10 [evC10] [] [] todayC10b) = 1 ∧
    (∃ a b : Nat,
      findSub upHeadC (merge_and_generate_markdown fmC10 [evC10] [] [] todayC10b) = some a ∧
      findSub pastHeadC (merge_and_generate_markdown fmC10 [evC10] [] [] todayC10b) = some b ∧
      a < b) ∧
    (∃ fm2 ups pas, parse_markdown (merge_and_generate_markdown fmC10 [evC10] [] []
      todayC10b) tsC10 = .ok (fm2, ups, pas)) :=
  spec_C10_render_parse fmC10 [evC10] [] [] todayC10b tsC10 (by decide) (by decide)
    (by
      intro e he
      have he2 : e = evC10 := by simpa using he
      subst he2
      exact ⟨by decide, by decide, by decide, by decide⟩)
